import Mathlib

/-!
Verification of the Sales-Tax-Automation repository.

The repository contains two variants of a monthly sales-tax-refund report
generator:

* `src/unnamed/part_000` — two near-identical pandas scripts
  ("NNOG Sales Tax Refund v0.9"); the second (final) variant, starting at the
  `process_sales_tax` of line 587, is embedded here as the `monthOut`
  pipeline, and the first variant's differing pre-processing order is
  embedded as `preprocessV1`.
* `src/python/NNOG Sales Tax Refund.py` — a SQLite-based variant; its
  row-retention logic (stage1 month filter and the deduplicated
  `inv_total` threshold of stages 2-4) is embedded as `sqlStage1`,
  `sqlInvTotal` and `sqlEmitted`.

Numeric amounts are machine floats in the source; they are embedded as exact
rationals (`PyNum`, an integer numerator with a positive natural
denominator, kept unnormalised so that every operation is plain integer
arithmetic).  All string operations are implemented structurally over
`List Char` so that concrete runs of the pipeline are decidable.
-/

set_option maxRecDepth 100000

/-- Exact value of a numeric amount (the source stores machine floats, which
are rationals; every constant the source compares against is an integer, so
exact rational arithmetic models the comparisons faithfully).  The fraction
is not kept normalised; value equality is `PyNum.veq`. -/
structure PyNum where
  num : Int
  den : PNat
  deriving DecidableEq, Repr

/-- The denominator as an integer. -/
def PyNum.d (q : PyNum) : Int := (q.den : Nat)

def PyNum.ofInt (n : Int) : PyNum := ⟨n, 1⟩

def PyNum.add (a b : PyNum) : PyNum :=
  ⟨a.num * b.d + b.num * a.d, a.den * b.den⟩

def PyNum.sum (l : List PyNum) : PyNum := l.foldr PyNum.add (PyNum.ofInt 0)

/-- Absolute value. -/
def PyNum.qabs (q : PyNum) : PyNum := ⟨|q.num|, q.den⟩

def PyNum.leP (a b : PyNum) : Prop := a.num * b.d ≤ b.num * a.d

def PyNum.ltP (a b : PyNum) : Prop := a.num * b.d < b.num * a.d

/-- Value equality of two (unnormalised) rationals. -/
def PyNum.veq (a b : PyNum) : Prop := a.num * b.d = b.num * a.d

instance : DecidableRel PyNum.leP :=
  fun a b => inferInstanceAs (Decidable (a.num * b.d ≤ b.num * a.d))

instance : DecidableRel PyNum.ltP :=
  fun a b => inferInstanceAs (Decidable (a.num * b.d < b.num * a.d))

instance : DecidableRel PyNum.veq :=
  fun a b => inferInstanceAs (Decidable (a.num * b.d = b.num * a.d))

/- ------------------------------------------------------------------
Structural string utilities.

Python string operations used by the scripts (`strip`, `split`, `upper`,
`startswith`, `in`, `int(...)`, `str.replace` with one-character patterns)
are implemented structurally over `List Char` so that the kernel can
evaluate them.  Python compares strings by code points, which matches the
`Char.toNat` comparisons used here.
------------------------------------------------------------------ -/

/-- Python `str.strip()` (leading and trailing whitespace removed; the
source only ever strips ASCII whitespace). -/
def trimL (l : List Char) : List Char :=
  ((l.dropWhile Char.isWhitespace).reverse.dropWhile Char.isWhitespace).reverse

/-- Python `str.split(sep)` for a one-character separator, including the
empty pieces Python produces. -/
def splitOnChAux (c : Char) (cur : List Char) : List Char → List (List Char)
  | [] => [cur.reverse]
  | x :: xs =>
      if x = c then cur.reverse :: splitOnChAux c [] xs
      else splitOnChAux c (x :: cur) xs

def splitOnCh (c : Char) (l : List Char) : List (List Char) :=
  splitOnChAux c [] l

/-- Value of a nonempty all-digit character list (otherwise `none`). -/
def digitsValAux (acc : Nat) : List Char → Option Nat
  | [] => some acc
  | c :: cs =>
      if c.isDigit then digitsValAux (acc * 10 + (c.toNat - 48)) cs
      else none

def digitsVal : List Char → Option Nat
  | [] => none
  | c :: cs => digitsValAux 0 (c :: cs)

/-- Python `int(s)`: surrounding whitespace stripped, an optional sign, then
decimal digits; anything else raises `ValueError`, modelled as `none`.
(Python's underscore digit grouping and non-ASCII digits are not modelled.) -/
def pyInt (s : String) : Option Int :=
  match trimL s.data with
  | '-' :: rest => (digitsVal rest).map (fun n => -(n : Int))
  | '+' :: rest => (digitsVal rest).map (fun n => (n : Int))
  | l => (digitsVal l).map (fun n => (n : Int))

/-- Python `str.upper()` (the data never leaves ASCII). -/
def upperL (l : List Char) : List Char := l.map Char.toUpper

def upperS (s : String) : String := ⟨upperL s.data⟩

/-- Python `needle in hay` substring containment. -/
def hasSubL (needle : List Char) : List Char → Bool
  | [] => needle.isEmpty
  | c :: rest => needle.isPrefixOf (c :: rest) || hasSubL needle rest

/-- Python string `<` (lexicographic by code point). -/
def listLt : List Char → List Char → Bool
  | [], [] => false
  | [], _ :: _ => true
  | _ :: _, [] => false
  | a :: as_, b :: bs =>
      if a.toNat < b.toNat then true
      else if b.toNat < a.toNat then false
      else listLt as_ bs

def sLtP (a b : String) : Prop := listLt a.data b.data = true

instance : DecidableRel sLtP :=
  fun a b => inferInstanceAs (Decidable (listLt a.data b.data = true))

/- ------------------------------------------------------------------
Lexicographic sort-key machinery.

`pandas.sort_values` with several key columns sorts by the lexicographic
combination of per-column orders (descending columns compare flipped).
`StrictCmp` packages the properties of one key column's strict order `lt`
together with the equivalence `eqv` of "ties"; `lexLt` composes columns.
------------------------------------------------------------------ -/

/-- A strict comparison `lt` with a compatible tie equivalence `eqv`
(one sort-key column). -/
structure StrictCmp {α : Type} (lt eqv : α → α → Prop) : Prop where
  eqv_refl : ∀ a, eqv a a
  eqv_symm : ∀ {a b}, eqv a b → eqv b a
  eqv_trans : ∀ {a b c}, eqv a b → eqv b c → eqv a c
  asym : ∀ {a b}, lt a b → lt b a → False
  lt_trans : ∀ {a b c}, lt a b → lt b c → lt a c
  total : ∀ a b, lt a b ∨ lt b a ∨ eqv a b
  congr_left : ∀ {a a' b}, eqv a a' → lt a b → lt a' b
  congr_right : ∀ {a b b'}, eqv b b' → lt a b → lt a b'

/-- Lexicographic strict order on pairs. -/
def lexLt {α β : Type} (lt1 eqv1 : α → α → Prop) (lt2 : β → β → Prop)
    (p q : α × β) : Prop :=
  lt1 p.1 q.1 ∨ (eqv1 p.1 q.1 ∧ lt2 p.2 q.2)

/-- Componentwise tie equivalence on pairs. -/
def lexEqv {α β : Type} (eqv1 : α → α → Prop) (eqv2 : β → β → Prop)
    (p q : α × β) : Prop :=
  eqv1 p.1 q.1 ∧ eqv2 p.2 q.2

instance {α β : Type} (lt1 eqv1 : α → α → Prop) (lt2 : β → β → Prop)
    [DecidableRel lt1] [DecidableRel eqv1] [DecidableRel lt2] :
    DecidableRel (lexLt lt1 eqv1 lt2) :=
  fun p q =>
    inferInstanceAs (Decidable (lt1 p.1 q.1 ∨ (eqv1 p.1 q.1 ∧ lt2 p.2 q.2)))

instance {α β : Type} (eqv1 : α → α → Prop) (eqv2 : β → β → Prop)
    [DecidableRel eqv1] [DecidableRel eqv2] :
    DecidableRel (lexEqv eqv1 eqv2) :=
  fun p q => inferInstanceAs (Decidable (eqv1 p.1 q.1 ∧ eqv2 p.2 q.2))

/- ------------------------------------------------------------------
Data model.
------------------------------------------------------------------ -/

/-- A parsed invoice date (only month and year are consulted). -/
structure PDate where
  month : Nat
  year : Int
  deriving DecidableEq, Repr

/-- One JIB ledger transaction row after pre-processing: column names follow
the normalised source columns (`name_1` is the vendor).  `txn_invoice_no` is
the invoice number after the source's `astype(str)`/strip/trailing-`.0`
cleaning; `txn_gross_amt` is the cleaned gross amount; `txn_inv_date` is the
`pd.to_datetime(..., errors='coerce')` result (`none` = NaT). -/
structure Row where
  name_1 : String
  txn_invoice_no : String
  property : String
  billing_cat : String
  txn_gross_amt : PyNum
  txn_inv_date : Option PDate
  deriving DecidableEq, Repr

/-- A raw gross-amount cell before cleaning: missing, text, or numeric. -/
inductive RawAmt where
  | null : RawAmt
  | str : String → RawAmt
  | numv : PyNum → RawAmt
  deriving DecidableEq, Repr

/-- A JIB row before the gross-amount cleaning step. -/
structure RawRow where
  name_1 : String
  txn_invoice_no : String
  property : String
  billing_cat : String
  txn_gross_amt : RawAmt
  txn_inv_date : Option PDate
  deriving DecidableEq, Repr

/-- A row of the invoice-reference ("Combined") file. -/
structure IRRow where
  invoice_no : String
  related_file_001 : Option String
  related_file_002 : Option String
  related_file_003 : Option String
  related_file_004 : Option String
  deriving DecidableEq, Repr

/-- The image-file references attached to one invoice after the
`groupby(invoice_no).first()` aggregation. -/
structure ImgRec where
  related_file_001 : Option String
  related_file_002 : Option String
  related_file_003 : Option String
  related_file_004 : Option String
  deriving DecidableEq, Repr

/-- A spreadsheet cell holding either a number or a string (the hyperlink
and filename columns mix the integer sentinel 0 with formula strings). -/
inductive PyVal where
  | intv : Int → PyVal
  | strv : String → PyVal
  deriving DecidableEq, Repr

/- ------------------------------------------------------------------
Currency cleaning (`clean_currency` of both v0.9 variants, lines 114-117
and 611-614 of part_000).
------------------------------------------------------------------ -/

/-- The character transformations of `clean_currency`:
`x.replace('(', '-').replace(')', '').replace(',', '').replace('$', '')`.
All patterns are single characters, so the replacements are a map followed
by a filter (the inserted `-` is not one of the deleted characters). -/
def pyCleanChars (l : List Char) : List Char :=
  (l.map (fun c => if c = '(' then '-' else c)).filter
    (fun c => !(c == ')' || c == ',' || c == '$'))

/-- Core decimal parser for `pd.to_numeric`: digits with an optional
decimal point (either side of the point may be empty, but not both).
Exponent notation is not modelled; no claim exercises it. -/
def parseDecCore (l : List Char) : Option PyNum :=
  match splitOnCh '.' l with
  | [a] => (digitsVal a).map (fun n => ⟨(n : Int), 1⟩)
  | [a, b] =>
      if a.isEmpty && b.isEmpty then none
      else
        match (if a.isEmpty then some 0 else digitsVal a),
              (if b.isEmpty then some 0 else digitsVal b) with
        | some na, some nb =>
            some ⟨(na * 10 ^ b.length + nb : Nat),
                  ⟨10 ^ b.length, pow_pos (by norm_num) _⟩⟩
        | _, _ => none
  | _ => none

/-- `pd.to_numeric(s, errors='coerce')` on a string: optional sign and
decimal digits, unparseable text becomes null (`none`). -/
def parseDec (l : List Char) : Option PyNum :=
  match trimL l with
  | '-' :: rest => (parseDecCore rest).map (fun q => ⟨-q.num, q.den⟩)
  | '+' :: rest => parseDecCore rest
  | l' => parseDecCore l'

/-- `clean_currency` (identical in both v0.9 variants): strings get the
parenthesis-to-minus / strip-`)`/`,`/`$` treatment then a numeric parse;
non-strings go through `pd.to_numeric` unchanged; missing values stay
missing. -/
def clean_currency (x : RawAmt) : Option PyNum :=
  match x with
  | RawAmt.null => none
  | RawAmt.numv q => some q
  | RawAmt.str s => parseDec (pyCleanChars s.data)

/-- A v0.9-first-variant row after pre-processing: the gross amount may
still be null, because that variant drops null rows before cleaning. -/
structure RowV1 where
  name_1 : String
  txn_invoice_no : String
  property : String
  billing_cat : String
  txn_gross_amt : Option PyNum
  txn_inv_date : Option PDate
  deriving DecidableEq, Repr

/-- Pre-processing of the first v0.9 variant (part_000 lines 108-120):
`dropna(subset=[gross])` happens BEFORE `clean_currency` is applied, so only
rows whose raw amount is missing are dropped; rows whose text fails to parse
survive with a null cleaned amount. -/
def preprocessV1 (l : List RawRow) : List RowV1 :=
  (l.filter (fun rr => !(rr.txn_gross_amt == RawAmt.null))).map
    (fun rr =>
      { name_1 := rr.name_1
        txn_invoice_no := rr.txn_invoice_no
        property := rr.property
        billing_cat := rr.billing_cat
        txn_gross_amt := clean_currency rr.txn_gross_amt
        txn_inv_date := rr.txn_inv_date })

/-- Pre-processing of the final v0.9 variant (part_000 lines 611-618):
`clean_currency` is applied first and then rows with a null cleaned amount
are dropped. -/
def preprocessV2 (l : List RawRow) : List Row :=
  l.filterMap (fun rr =>
    (clean_currency rr.txn_gross_amt).map (fun g =>
      { name_1 := rr.name_1
        txn_invoice_no := rr.txn_invoice_no
        property := rr.property
        billing_cat := rr.billing_cat
        txn_gross_amt := g
        txn_inv_date := rr.txn_inv_date }))

/- ------------------------------------------------------------------
`parse_months` — final v0.9 variant (part_000 lines 516-532) and the
SQLite-script variant (NNOG Sales Tax Refund.py lines 21-35).
------------------------------------------------------------------ -/

/-- `pyInt` on a character list (Python `int()` strips whitespace itself). -/
def pyIntL (l : List Char) : Option Int :=
  match trimL l with
  | '-' :: rest => (digitsVal rest).map (fun n => -(n : Int))
  | '+' :: rest => (digitsVal rest).map (fun n => (n : Int))
  | l' => (digitsVal l').map (fun n => (n : Int))

/-- Python `list(range(a, b + 1))`. -/
def intRange (a b : Int) : List Int :=
  (List.range (b + 1 - a).toNat).map (fun i => a + i)

/-- `1 <= m <= 12`. -/
def monthBoundsOk (m : Int) : Bool := decide (1 ≤ m ∧ m ≤ 12)

/-- The `try` block of the final v0.9 `parse_months`: the input is stripped;
a `-` means a range built from the first two `-`-separated pieces, a `,`
means a list, otherwise a single integer; `none` models `ValueError`. -/
def tryParseMonths (s : String) : Option (List Int) :=
  let t := trimL s.data
  if t.contains '-' then
    let parts := splitOnCh '-' t
    match pyIntL (parts.getD 0 []), pyIntL (parts.getD 1 []) with
    | some a, some b => some (intRange a b)
    | _, _ => none
  else if t.contains ',' then
    (splitOnCh ',' t).mapM pyIntL
  else (pyIntL t).map (fun n => [n])

/-- `parse_months` of the final v0.9 variant: fall back to `[1]` on a parse
error, keep months within 1..12, return them sorted. -/
def parse_months (s : String) : List Int :=
  List.insertionSort (· ≤ ·)
    (((tryParseMonths s).getD [1]).filter monthBoundsOk)

/-- The `try` block of the SQLite-script `parse_months`: the raw input is
tested for `-`/`,`; a range must split into exactly two pieces
(`start, end = map(int, ...)` raises `ValueError` otherwise). -/
def tryParseMonthsSql (s : String) : Option (List Int) :=
  if s.data.contains '-' then
    let parts := splitOnCh '-' s.data
    if parts.length = 2 then
      match pyIntL (parts.getD 0 []), pyIntL (parts.getD 1 []) with
      | some a, some b => some (intRange a b)
      | _, _ => none
    else none
  else if s.data.contains ',' then
    (splitOnCh ',' s.data).mapM pyIntL
  else (pyIntL s.data).map (fun n => [n])

/-- `parse_months` of the SQLite-script variant: same fallback and bounds
filter, but the result is NOT sorted. -/
def parse_months_sql (s : String) : List Int :=
  ((tryParseMonthsSql s).getD [1]).filter monthBoundsOk

/- ------------------------------------------------------------------
The monthly pipeline of the final v0.9 `process_sales_tax`
(part_000 lines 645-801), for one requested (month, year).
------------------------------------------------------------------ -/

/-- The date mask `(dt.month == month) & (dt.year == year)`; NaT rows fail
both comparisons. -/
def inMonthB (m : Nat) (y : Int) (r : Row) : Bool :=
  match r.txn_inv_date with
  | some d => decide (d.month = m) && decide (d.year = y)
  | none => false

/-- `df_month`: the requested month's rows. -/
def dfMonth (rows : List Row) (m : Nat) (y : Int) : List Row :=
  rows.filter (inMonthB m y)

/-- `Inv_Total`: the per-invoice `groupby(invoice)[gross].transform('sum')`. -/
def invTot (rows : List Row) (inv : String) : PyNum :=
  PyNum.sum ((rows.filter (fun r => r.txn_invoice_no == inv)).map
    (fun r => r.txn_gross_amt))

/-- Descending comparison on a numeric key column. -/
def gtQ (a b : PyNum) : Prop := PyNum.ltP b a

instance : DecidableRel gtQ :=
  fun a b => inferInstanceAs (Decidable (PyNum.ltP b a))

/-- Sort key of the first sort (part_000 lines 661-682): vendor, invoice,
property, billing category ascending, then gross amount descending. -/
abbrev Key5 := String × (String × (String × (String × PyNum)))

def key5 (r : Row) : Key5 :=
  (r.name_1, (r.txn_invoice_no, (r.property, (r.billing_cat, r.txn_gross_amt))))

abbrev lt5 : Key5 → Key5 → Prop :=
  lexLt sLtP Eq (lexLt sLtP Eq (lexLt sLtP Eq (lexLt sLtP Eq gtQ)))

abbrev eqv5 : Key5 → Key5 → Prop :=
  lexEqv Eq (lexEqv Eq (lexEqv Eq (lexEqv Eq PyNum.veq)))

/-- The first sort's row order (non-strict, as `sort_values` needs). -/
def rel1 (a b : Row) : Prop := ¬ lt5 (key5 b) (key5 a)

instance : DecidableRel rel1 :=
  fun a b => inferInstanceAs (Decidable (¬ lt5 (key5 b) (key5 a)))

def sort1 (l : List Row) : List Row := List.insertionSort rel1 l

/-- Sort key of the re-sort (part_000 lines 719-723): `Inv_Total`
descending first, then the first sort's columns. -/
abbrev Key6 := PyNum × Key5

def key6 (tot : String → PyNum) (r : Row) : Key6 :=
  (tot r.txn_invoice_no, key5 r)

abbrev lt6 : Key6 → Key6 → Prop := lexLt gtQ PyNum.veq lt5

abbrev eqv6 : Key6 → Key6 → Prop := lexEqv PyNum.veq eqv5

/-- The re-sort's row order. -/
def relFinal (tot : String → PyNum) (a b : Row) : Prop :=
  ¬ lt6 (key6 tot b) (key6 tot a)

instance (tot : String → PyNum) : DecidableRel (relFinal tot) :=
  fun a b => inferInstanceAs (Decidable (¬ lt6 (key6 tot b) (key6 tot a)))

/-- The `$2000` invoice-total filter
(`Inv_Total >= 2000) | (Inv_Total <= -2000`). -/
def thrKeep (tot : String → PyNum) (r : Row) : Bool :=
  decide (PyNum.leP (PyNum.ofInt 2000) (tot r.txn_invoice_no)) ||
  decide (PyNum.leP (tot r.txn_invoice_no) (PyNum.ofInt (-2000)))

/-- `invoice.str.upper().str.startswith(('GJ', 'PE'))`. -/
def hasExcludedPfx (inv : String) : Bool :=
  ['G', 'J'].isPrefixOf (upperL inv.data) ||
  ['P', 'E'].isPrefixOf (upperL inv.data)

/-- The fixed excluded-vendor list (part_000 lines 700-703). -/
def excludedVendors : List String :=
  [ "J R CONSTRUCTION"
  , "MONTEZUMA WELL SERVICE"
  , "MARYBOY"
  , "NELSON" ++ String.singleton (Char.ofNat 39) ++ "S WELDING & ROUSTABOUT"
  , "3G CONSULTING" ]

/-- `any(v in vendor.upper() for v in excluded_vendors)`. -/
def vendorMatchB (vendor : String) : Bool :=
  excludedVendors.any (fun v => hasSubL v.data (upperL vendor.data))

/-- Keep a row unless `(|Inv_Total| < 3500) & (vendor matches)`. -/
def vendKeep (tot : String → PyNum) (r : Row) : Bool :=
  !(decide (PyNum.ltP (PyNum.qabs (tot r.txn_invoice_no)) (PyNum.ofInt 3500)) &&
    vendorMatchB r.name_1)

/-- The per-invoice total of the requested month (`Inv_Total` is computed on
the sorted `df_month`; the sort only permutes the summands). -/
def monthTot (rows : List Row) (m : Nat) (y : Int) : String → PyNum :=
  invTot (sort1 (dfMonth rows m y))

/-- The month's rows surviving all three filters (threshold, GJ/PE prefix,
excluded vendors), in first-sort order. -/
def keptRows (rows : List Row) (m : Nat) (y : Int) : List Row :=
  (((sort1 (dfMonth rows m y)).filter (thrKeep (monthTot rows m y))).filter
      (fun r => !(hasExcludedPfx r.txn_invoice_no))).filter
    (vendKeep (monthTot rows m y))

/-- The surviving rows after the re-sort. -/
def sortedKept (rows : List Row) (m : Nat) (y : Int) : List Row :=
  List.insertionSort (relFinal (monthTot rows m y)) (keptRows rows m y)

/-- `is_first_row = ~duplicated(subset=[invoice], keep='first')`: a row is
flagged iff its invoice number has not appeared earlier in the frame. -/
def markFirstAux (seen : List String) : List Row → List (Row × Bool)
  | [] => []
  | r :: rest =>
      (r, !(seen.contains r.txn_invoice_no)) ::
        markFirstAux (r.txn_invoice_no :: seen) rest

def markFirst (l : List Row) : List (Row × Bool) := markFirstAux [] l

/-- `df_ir.groupby(invoice_no)[img_cols].first()` followed by the left
join: per image column, the first non-null value among the invoice's
reference rows (all-null and absent invoices give `none`). -/
def irFirst (ir : List IRRow) (inv : String) : ImgRec :=
  let g := ir.filter (fun r => r.invoice_no == inv)
  { related_file_001 := (g.filterMap (fun r => r.related_file_001)).head?
    related_file_002 := (g.filterMap (fun r => r.related_file_002)).head?
    related_file_003 := (g.filterMap (fun r => r.related_file_003)).head?
    related_file_004 := (g.filterMap (fun r => r.related_file_004)).head? }

/-- `q_map.get(month, 1)`: the fixed month-to-quarter dictionary. -/
def qOfMonth (m : Nat) : Nat :=
  if 1 ≤ m ∧ m ≤ 12 then (m - 1) / 3 + 1 else 1

/-- `next_q = (current_q % 4) + 1`. -/
def nextQOf (q : Nat) : Nat := (q % 4) + 1

/-- `next_q_year = year if current_q < 4 else year + 1`. -/
def nextQYear (q : Nat) (y : Int) : Int := if q < 4 then y else y + 1

def baseDropbox : String := "C:\\Users\\brend\\Dropbox\\Images MP-BC-AP R4Q2"

def baseFDrive : String := "F:\\Images MP-BC-AP R4Q2"

def quarterFolder (y : Int) (q : Nat) : String :=
  toString y ++ " Q" ++ toString q ++ " Invoices\\"

/-- The four link path bases, in the insertion order of the `paths` dict
(part_000 lines 755-760): Dropbox current quarter, Dropbox next quarter,
F-drive current quarter, F-drive next quarter. -/
def pathBases (m : Nat) (y : Int) : List String :=
  [ baseDropbox ++ "\\" ++ quarterFolder y (qOfMonth m)
  , baseDropbox ++ "\\" ++ quarterFolder (nextQYear (qOfMonth m) y) (nextQOf (qOfMonth m))
  , baseFDrive ++ "\\" ++ quarterFolder y (qOfMonth m)
  , baseFDrive ++ "\\" ++ quarterFolder (nextQYear (qOfMonth m) y) (nextQOf (qOfMonth m)) ]

def strTrim (s : String) : String := ⟨trimL s.data⟩

/-- `make_hyperlink` (part_000 lines 762-769): the integer 0 for non-first
rows and missing/blank images, otherwise the Excel HYPERLINK formula. -/
def make_hyperlink (first : Bool) (img : Option String) (base : String) : PyVal :=
  if !first then PyVal.intv 0
  else
    match img with
    | none => PyVal.intv 0
    | some s =>
        if (trimL s.data).isEmpty then PyVal.intv 0
        else
          PyVal.strv ("=HYPERLINK(\"" ++ base ++ strTrim s ++ "\", \"" ++
            strTrim s ++ "\")")

/-- Python `f"{n:0wd}"`. -/
def pad0 (w n : Nat) : String :=
  String.mk (List.replicate (w - (toString n).length) '0') ++ toString n

/-- `build_tax_comm_filename`'s filename `S<year><month:02d>-<seq:03d>.pdf`. -/
def taxFname (y : Int) (m : Nat) (n : Nat) : String :=
  "S" ++ toString y ++ pad0 2 m ++ "-" ++ pad0 3 n ++ ".pdf"

/-- One output row of a month's report: the sequence number pair, the
original ledger row, the 4 x 4 hyperlink columns (one inner list of four
path variants per image column) and the tax-commission filename cell.  The
eight empty manually-completed tax columns are constant and not modelled. -/
structure OutRow where
  forSeq : Nat
  seqPad : String
  row : Row
  links : List (List PyVal)
  taxComm : PyVal
  deriving DecidableEq, Repr

def imgList (im : ImgRec) : List (Option String) :=
  [im.related_file_001, im.related_file_002, im.related_file_003,
   im.related_file_004]

/-- Assemble one output row: hyperlinks (`make_hyperlink` per image column
and path base), padded sequence number, and `build_tax_comm_filename`
(the filename on first rows, the integer 0 otherwise). -/
def mkOut (m : Nat) (y : Int) (t : Row × Bool × ImgRec) (n : Nat) : OutRow :=
  { forSeq := n
    seqPad := pad0 3 n
    row := t.1
    links := (imgList t.2.2).map (fun img =>
      (pathBases m y).map (make_hyperlink t.2.1 img))
    taxComm := if t.2.1 then PyVal.strv (taxFname y m n) else PyVal.intv 0 }

/-- `For_Seq_No = (invoice != invoice.shift()).cumsum()`: the counter steps
by one exactly when the invoice number differs from the previous row. -/
def enrichFrom (m : Nat) (y : Int) (prevInv : String) (n : Nat) :
    List (Row × Bool × ImgRec) → List OutRow
  | [] => []
  | t :: rest =>
      let n' := if t.1.txn_invoice_no = prevInv then n else n + 1
      mkOut m y t n' :: enrichFrom m y t.1.txn_invoice_no n' rest

/-- The enrichment of the merged frame; the first row always gets sequence
number 1 (`invoice != NaN` is true). -/
def process_out (m : Nat) (y : Int) :
    List (Row × Bool × ImgRec) → List OutRow
  | [] => []
  | t :: rest => mkOut m y t 1 :: enrichFrom m y t.1.txn_invoice_no 1 rest

/-- The left merge with the grouped invoice-reference frame (row-order and
row-count preserving because the right side has unique invoice keys). -/
def attachImgs (ir : List IRRow) (l : List (Row × Bool)) :
    List (Row × Bool × ImgRec) :=
  l.map (fun rb => (rb.1, rb.2, irFirst ir rb.1.txn_invoice_no))

/-- One month's final report rows (final v0.9 `process_sales_tax`). -/
def monthOut (rows : List Row) (ir : List IRRow) (m : Nat) (y : Int) :
    List OutRow :=
  process_out m y (attachImgs ir (markFirst (sortedKept rows m y)))

/- ------------------------------------------------------------------
The SQLite variant's row retention (`NNOG Sales Tax Refund.py`):
stage1 filters on `CAST(strftime('%m', txn_inv_date) AS INT) = month`
(the year is never compared), stages 2-3 compute `inv_total` as the sum of
one representative per duplicate
(invoice, vendor, property, billing, amount) group, and the `Filtered` CTE
keeps rows with `inv_total >= 2000 OR inv_total <= -2000`.  The remaining
SQL only adds columns (the LEFT JOIN is against invoice-grouped unique
keys), so `sqlEmitted` is the emitted row set.  Rows are modelled
post-cleaning, with a parsed date and a non-null numeric amount.
------------------------------------------------------------------ -/

/-- Stage1's date filter: month equality only; an unparseable date gives
`strftime = NULL`, which fails the comparison. -/
def sqlStage1 (rows : List Row) (m : Nat) : List Row :=
  rows.filter (fun r =>
    match r.txn_inv_date with
    | some d => decide (d.month = m)
    | none => false)

/-- Stage2's partition key: `PARTITION BY txn_invoice_no, name_1, property,
billing_cat, clean_gross` (SQLite compares the numeric value). -/
def sqlSameKey (a b : Row) : Bool :=
  a.txn_invoice_no == b.txn_invoice_no && a.name_1 == b.name_1 &&
  a.property == b.property && a.billing_cat == b.billing_cat &&
  decide (PyNum.veq a.txn_gross_amt b.txn_gross_amt)

/-- One representative (`row_id = 1`) per duplicate group, in row order. -/
def sqlRepsAux (seen : List Row) : List Row → List Row
  | [] => []
  | r :: rest =>
      if seen.any (sqlSameKey r) then sqlRepsAux seen rest
      else r :: sqlRepsAux (r :: seen) rest

def sqlReps (l : List Row) : List Row := sqlRepsAux [] l

/-- Stage3's `inv_total`: `SUM(CASE WHEN row_id = 1 THEN clean_gross ELSE 0
END) OVER (PARTITION BY txn_invoice_no)` — the duplicate rows contribute
zero, so the total is the sum over the representatives of the invoice. -/
def sqlInvTotal (rows : List Row) (inv : String) : PyNum :=
  PyNum.sum (((sqlReps rows).filter (fun r => r.txn_invoice_no == inv)).map
    (fun r => r.txn_gross_amt))

/-- The rows the SQLite variant emits for a requested month. -/
def sqlEmitted (rows : List Row) (m : Nat) : List Row :=
  (sqlStage1 rows m).filter (fun r =>
    decide (PyNum.leP (PyNum.ofInt 2000)
      (sqlInvTotal (sqlStage1 rows m) r.txn_invoice_no)) ||
    decide (PyNum.leP (sqlInvTotal (sqlStage1 rows m) r.txn_invoice_no)
      (PyNum.ofInt (-2000))))

/- ------------------------------------------------------------------
Sequence-number structure (`For_Seq_No` cumsum) and first-row flags.
------------------------------------------------------------------ -/

/-- The adjacent-row relation of `For_Seq_No`: the counter stays equal when
the invoice repeats and steps by exactly one when it changes. -/
def seqStep (o1 o2 : OutRow) : Prop :=
  o2.forSeq =
    if o2.row.txn_invoice_no = o1.row.txn_invoice_no then o1.forSeq
    else o1.forSeq + 1

/-- The leading characters every generated hyperlink formula starts with. -/
def hyperPfx : List Char := "=HYPERLINK(".data

/-- Whether a merged image cell is populated (non-null, non-blank). -/
def imgPresentB : Option String → Bool
  | none => false
  | some s => !(trimL s.data).isEmpty

/- ------------------------------------------------------------------
Concrete tables used by witnesses and counterexamples.
------------------------------------------------------------------ -/

/-- A default output row (used with `List.getD`). -/
def outD : OutRow :=
  ⟨0, "", ⟨"", "", "", "", ⟨0, 1⟩, none⟩, [], PyVal.intv 0⟩

def rowFeb2023 : Row := ⟨"ACME", "INV7", "P1", "B1", ⟨5000, 1⟩, some ⟨2, 2023⟩⟩

def rowFeb2024 : Row := ⟨"ACME", "INV7", "P1", "B1", ⟨5000, 1⟩, some ⟨2, 2024⟩⟩

def gjRow : Row := ⟨"ACME", "GJ4491", "P1", "B1", ⟨5000, 1⟩, some ⟨1, 2024⟩⟩

def maryLow : Row := ⟨"MARYBOY", "INV1", "P1", "B1", ⟨2500, 1⟩, some ⟨1, 2024⟩⟩

def maryHigh : Row := ⟨"MARYBOY", "INV1", "P1", "B1", ⟨4000, 1⟩, some ⟨1, 2024⟩⟩

def maryGJ : Row := ⟨"MARYBOY", "GJ9", "P1", "B1", ⟨4000, 1⟩, some ⟨1, 2024⟩⟩

/-- Invoice X with one 3000 row and a duplicated -600 row: the plain sum is
1800, the duplicate-collapsed sum is 2400. -/
def dupRows : List Row :=
  [⟨"ACME", "X", "P1", "B1", ⟨3000, 1⟩, some ⟨1, 2024⟩⟩,
   ⟨"ACME", "X", "P1", "B1", ⟨-600, 1⟩, some ⟨1, 2024⟩⟩,
   ⟨"ACME", "X", "P1", "B1", ⟨-600, 1⟩, some ⟨1, 2024⟩⟩]

/-- Invoice X appears under two vendors A and C with invoice Y (vendor B)
sorting between them: X's rows form two separated runs. -/
def runRows : List Row :=
  [⟨"A", "X", "P1", "B1", ⟨2000, 1⟩, some ⟨1, 2024⟩⟩,
   ⟨"B", "Y", "P1", "B1", ⟨2000, 1⟩, some ⟨1, 2024⟩⟩,
   ⟨"C", "X", "P1", "B1", ⟨0, 1⟩, some ⟨1, 2024⟩⟩]

/-- Two rows of one invoice with the same vendor. -/
def wRows2 : List Row :=
  [⟨"ACME", "X", "P1", "B1", ⟨2000, 1⟩, some ⟨1, 2024⟩⟩,
   ⟨"ACME", "X", "P1", "B1", ⟨100, 1⟩, some ⟨1, 2024⟩⟩]

/-- Two identical rows of invoice X with amount 1500 each. -/
def pairRows : List Row :=
  [⟨"ACME", "X", "P1", "B1", ⟨1500, 1⟩, some ⟨1, 2024⟩⟩,
   ⟨"ACME", "X", "P1", "B1", ⟨1500, 1⟩, some ⟨1, 2024⟩⟩]

/-- Two distinct rows of invoice X (no duplicate composite keys). -/
def dupTwo : List Row :=
  [⟨"ACME", "X", "P1", "B1", ⟨3000, 1⟩, some ⟨1, 2024⟩⟩,
   ⟨"ACME", "X", "P1", "B1", ⟨-600, 1⟩, some ⟨1, 2024⟩⟩]

def rawAbc : RawRow := ⟨"V", "I", "P1", "B1", RawAmt.str "abc", some ⟨1, 2024⟩⟩

/-- The invoice-reference table used by the C6 witness. -/
def wIR : List IRRow :=
  [⟨"INV7", some "img1.pdf", none, some " ", some "img4.pdf"⟩]

theorem PyNum.d_pos (q : PyNum) : 0 < q.d := by
  have h := q.den.pos
  unfold PyNum.d
  exact_mod_cast h

theorem PyNum.d_ne (q : PyNum) : q.d ≠ 0 := ne_of_gt q.d_pos

theorem PyNum.veq_refl (a : PyNum) : PyNum.veq a a := rfl

theorem PyNum.veq_symm {a b : PyNum} (h : PyNum.veq a b) : PyNum.veq b a :=
  h.symm

theorem PyNum.veq_trans {a b c : PyNum} (h1 : PyNum.veq a b)
    (h2 : PyNum.veq b c) : PyNum.veq a c := by
  unfold PyNum.veq at *
  have hb := b.d_ne
  apply mul_right_cancel₀ hb
  linear_combination c.d * h1 + a.d * h2

theorem PyNum.ltP_asym {a b : PyNum} (h1 : PyNum.ltP a b)
    (h2 : PyNum.ltP b a) : False := by
  unfold PyNum.ltP at *
  omega

theorem PyNum.ltP_trans {a b c : PyNum} (h1 : PyNum.ltP a b)
    (h2 : PyNum.ltP b c) : PyNum.ltP a c := by
  unfold PyNum.ltP at *
  have hb := b.d_pos
  have h1' := mul_lt_mul_of_pos_right h1 c.d_pos
  have h2' := mul_lt_mul_of_pos_right h2 a.d_pos
  have e1 : b.num * c.d * a.d = b.num * a.d * c.d := by ring
  have h2'' : a.num * b.d * c.d < c.num * b.d * a.d := by
    calc a.num * b.d * c.d < b.num * a.d * c.d := h1'
    _ = b.num * c.d * a.d := by ring
    _ < c.num * b.d * a.d := h2'
  have : a.num * c.d * b.d < c.num * a.d * b.d := by
    calc a.num * c.d * b.d = a.num * b.d * c.d := by ring
    _ < c.num * b.d * a.d := h2''
    _ = c.num * a.d * b.d := by ring
  exact lt_of_mul_lt_mul_right this (le_of_lt hb)

theorem PyNum.ltP_total (a b : PyNum) :
    PyNum.ltP a b ∨ PyNum.ltP b a ∨ PyNum.veq a b := by
  unfold PyNum.ltP PyNum.veq
  omega

theorem PyNum.veq_ltP_left {a a' b : PyNum} (h : PyNum.veq a a')
    (hl : PyNum.ltP a b) : PyNum.ltP a' b := by
  unfold PyNum.veq PyNum.ltP at *
  have ha := a.d_pos
  have h1 := mul_lt_mul_of_pos_right hl a'.d_pos
  have e1 : a'.num * b.d * a.d = a.num * b.d * a'.d := by
    linear_combination (-(b.d)) * h
  have e2 : b.num * a.d * a'.d = b.num * a'.d * a.d := by ring
  have : a'.num * b.d * a.d < b.num * a'.d * a.d := by
    rw [e1, ← e2]; exact h1
  exact lt_of_mul_lt_mul_right this (le_of_lt ha)

theorem PyNum.veq_ltP_right {a b b' : PyNum} (h : PyNum.veq b b')
    (hl : PyNum.ltP a b) : PyNum.ltP a b' := by
  unfold PyNum.veq PyNum.ltP at *
  have hb := b.d_pos
  have h1 := mul_lt_mul_of_pos_right hl b'.d_pos
  have e1 : a.num * b'.d * b.d = a.num * b.d * b'.d := by ring
  have e2 : b'.num * a.d * b.d = b.num * a.d * b'.d := by
    linear_combination (-(a.d)) * h
  have : a.num * b'.d * b.d < b'.num * a.d * b.d := by
    rw [e1, e2]; exact h1
  exact lt_of_mul_lt_mul_right this (le_of_lt hb)

theorem PyNum.leP_total (a b : PyNum) : PyNum.leP a b ∨ PyNum.leP b a := by
  unfold PyNum.leP
  omega

theorem PyNum.leP_trans {a b c : PyNum} (h1 : PyNum.leP a b)
    (h2 : PyNum.leP b c) : PyNum.leP a c := by
  unfold PyNum.leP at *
  have hb := b.d_pos
  have h1' := mul_le_mul_of_nonneg_right h1 (le_of_lt c.d_pos)
  have h2' := mul_le_mul_of_nonneg_right h2 (le_of_lt a.d_pos)
  have h2'' : a.num * b.d * c.d ≤ c.num * b.d * a.d := by
    calc a.num * b.d * c.d ≤ b.num * a.d * c.d := h1'
    _ = b.num * c.d * a.d := by ring
    _ ≤ c.num * b.d * a.d := h2'
  have : a.num * c.d * b.d ≤ c.num * a.d * b.d := by
    calc a.num * c.d * b.d = a.num * b.d * c.d := by ring
    _ ≤ c.num * b.d * a.d := h2''
    _ = c.num * a.d * b.d := by ring
  exact le_of_mul_le_mul_right this hb

theorem PyNum.not_ltP_of_leP {a b : PyNum} (h : PyNum.leP a b) :
    ¬ PyNum.ltP b a := by
  unfold PyNum.leP at h
  unfold PyNum.ltP
  omega

theorem PyNum.leP_of_not_ltP {a b : PyNum} (h : ¬ PyNum.ltP a b) :
    PyNum.leP b a := by
  unfold PyNum.ltP at h
  unfold PyNum.leP
  omega

/-- `k ≤ |t|` iff `k ≤ t` or `t ≤ -k`, for an integer threshold `k`. -/
theorem PyNum.ofInt_le_qabs_iff (k : Int) (t : PyNum) :
    PyNum.leP (PyNum.ofInt k) t.qabs ↔
      PyNum.leP (PyNum.ofInt k) t ∨ PyNum.leP t (PyNum.ofInt (-k)) := by
  unfold PyNum.leP PyNum.ofInt PyNum.qabs PyNum.d
  simp only [PNat.one_coe, Nat.cast_one, mul_one]
  rw [le_abs, show -k * ((t.den : Nat) : Int) = -(k * ((t.den : Nat) : Int)) by ring]
  exact or_congr Iff.rfl le_neg

/-- `|t| < k` iff `t < k` and `-k < t`, for an integer threshold `k`. -/
theorem PyNum.qabs_lt_ofInt_iff (k : Int) (t : PyNum) :
    PyNum.ltP t.qabs (PyNum.ofInt k) ↔
      PyNum.ltP t (PyNum.ofInt k) ∧ PyNum.ltP (PyNum.ofInt (-k)) t := by
  unfold PyNum.ltP PyNum.ofInt PyNum.qabs PyNum.d
  simp only [PNat.one_coe, Nat.cast_one, mul_one, one_mul]
  rw [abs_lt, show -k * ((t.den : Nat) : Int) = -(k * ((t.den : Nat) : Int)) by ring]
  exact and_comm

theorem PyNum.ofInt_leP_ofInt {a b : Int} (h : a ≤ b) :
    PyNum.leP (PyNum.ofInt a) (PyNum.ofInt b) := by
  unfold PyNum.leP PyNum.ofInt PyNum.d
  simpa using h

theorem charEq_of_toNat {a b : Char} (h : a.toNat = b.toNat) : a = b :=
  Char.ext (UInt32.ext h)

theorem listLt_asym : ∀ {a b : List Char},
    listLt a b = true → listLt b a = true → False
  | [], [], h1, _ => by simp [listLt] at h1
  | [], _ :: _, _, h2 => by simp [listLt] at h2
  | _ :: _, [], h1, _ => by simp [listLt] at h1
  | a :: as_, b :: bs, h1, h2 => by
      unfold listLt at h1 h2
      by_cases hab : a.toNat < b.toNat
      · have hba : ¬ b.toNat < a.toNat := by omega
        simp [hab, hba] at h2
      · by_cases hba : b.toNat < a.toNat
        · simp [hab, hba] at h1
        · simp [hab, hba] at h1 h2
          exact listLt_asym h1 h2

theorem listLt_trans : ∀ {a b c : List Char},
    listLt a b = true → listLt b c = true → listLt a c = true
  | [], [], _ :: _, h1, _ => by simp [listLt] at h1
  | [], [], [], h1, _ => by simp [listLt] at h1
  | [], _ :: _, [], _, h2 => by simp [listLt] at h2
  | [], _ :: _, _ :: _, _, _ => by simp [listLt]
  | _ :: _, [], _, h1, _ => by simp [listLt] at h1
  | _ :: _, _ :: _, [], _, h2 => by simp [listLt] at h2
  | a :: as_, b :: bs, c :: cs, h1, h2 => by
      unfold listLt at h1 h2 ⊢
      by_cases hab : a.toNat < b.toNat
      · by_cases hbc : b.toNat < c.toNat
        · have hac : a.toNat < c.toNat := by omega
          simp [hac]
        · by_cases hcb : c.toNat < b.toNat
          · simp [hbc, hcb] at h2
          · have hac : a.toNat < c.toNat := by omega
            simp [hac]
      · by_cases hba : b.toNat < a.toNat
        · simp [hab, hba] at h1
        · simp [hab, hba] at h1
          by_cases hbc : b.toNat < c.toNat
          · have hac : a.toNat < c.toNat := by omega
            simp [hac]
          · by_cases hcb : c.toNat < b.toNat
            · simp [hbc, hcb] at h2
            · have hac : ¬ a.toNat < c.toNat := by omega
              have hca : ¬ c.toNat < a.toNat := by omega
              simp [hbc, hcb] at h2
              simp [hac, hca]
              exact listLt_trans h1 h2

theorem listLt_total : ∀ (a b : List Char),
    listLt a b = true ∨ listLt b a = true ∨ a = b
  | [], [] => Or.inr (Or.inr rfl)
  | [], _ :: _ => Or.inl (by simp [listLt])
  | _ :: _, [] => Or.inr (Or.inl (by simp [listLt]))
  | a :: as_, b :: bs => by
      rcases Nat.lt_trichotomy a.toNat b.toNat with h | h | h
      · exact Or.inl (by unfold listLt; simp [h])
      · have hab : ¬ a.toNat < b.toNat := by omega
        have hba : ¬ b.toNat < a.toNat := by omega
        have hc : a = b := charEq_of_toNat h
        rcases listLt_total as_ bs with h' | h' | h'
        · exact Or.inl (by unfold listLt; simp [hab, hba, h'])
        · exact Or.inr (Or.inl (by unfold listLt; simp [hab, hba, h']))
        · exact Or.inr (Or.inr (by rw [hc, h']))
      · have hab : ¬ a.toNat < b.toNat := by omega
        exact Or.inr (Or.inl (by unfold listLt; simp [h, hab]))

theorem sLtP_asym {a b : String} (h1 : sLtP a b) (h2 : sLtP b a) : False :=
  listLt_asym h1 h2

theorem sLtP_trans {a b c : String} (h1 : sLtP a b) (h2 : sLtP b c) :
    sLtP a c :=
  listLt_trans h1 h2

theorem sLtP_total (a b : String) : sLtP a b ∨ sLtP b a ∨ a = b := by
  rcases listLt_total a.data b.data with h | h | h
  · exact Or.inl h
  · exact Or.inr (Or.inl h)
  · refine Or.inr (Or.inr ?_)
    have hd : a.data = b.data := h
    cases a
    cases b
    cases hd
    rfl

theorem StrictCmp.not_lt_of_eqv {α : Type} {lt eqv : α → α → Prop}
    (h : StrictCmp lt eqv) {a b : α} (he : eqv a b) : ¬ lt a b :=
  fun hl => h.asym (h.congr_left he hl) (h.congr_left he hl)

theorem StrictCmp.flip {α : Type} {lt eqv : α → α → Prop}
    (h : StrictCmp lt eqv) : StrictCmp (fun a b => lt b a) eqv where
  eqv_refl := h.eqv_refl
  eqv_symm := h.eqv_symm
  eqv_trans := h.eqv_trans
  asym := fun h1 h2 => h.asym h2 h1
  lt_trans := fun h1 h2 => h.lt_trans h2 h1
  total := fun a b => by
    rcases h.total a b with hl | hl | he
    · exact Or.inr (Or.inl hl)
    · exact Or.inl hl
    · exact Or.inr (Or.inr he)
  congr_left := fun he hl => h.congr_right he hl
  congr_right := fun he hl => h.congr_left he hl

theorem lexOk {α β : Type} {lt1 eqv1 : α → α → Prop} {lt2 eqv2 : β → β → Prop}
    (h1 : StrictCmp lt1 eqv1) (h2 : StrictCmp lt2 eqv2) :
    StrictCmp (lexLt lt1 eqv1 lt2) (lexEqv eqv1 eqv2) where
  eqv_refl := fun p => ⟨h1.eqv_refl p.1, h2.eqv_refl p.2⟩
  eqv_symm := fun ⟨ha, hb⟩ => ⟨h1.eqv_symm ha, h2.eqv_symm hb⟩
  eqv_trans := fun ⟨ha, hb⟩ ⟨hc, hd⟩ => ⟨h1.eqv_trans ha hc, h2.eqv_trans hb hd⟩
  asym := by
    rintro p q (hl | ⟨he, hl⟩) (hl' | ⟨he', hl'⟩)
    · exact h1.asym hl hl'
    · exact h1.not_lt_of_eqv (h1.eqv_symm he') hl
    · exact h1.not_lt_of_eqv (h1.eqv_symm he) hl'
    · exact h2.asym hl hl'
  lt_trans := by
    rintro p q r (hl | ⟨he, hl⟩) (hl' | ⟨he', hl'⟩)
    · exact Or.inl (h1.lt_trans hl hl')
    · exact Or.inl (h1.congr_right he' hl)
    · exact Or.inl (h1.congr_left (h1.eqv_symm he) hl')
    · exact Or.inr ⟨h1.eqv_trans he he', h2.lt_trans hl hl'⟩
  total := fun p q => by
    rcases h1.total p.1 q.1 with hl | hl | he
    · exact Or.inl (Or.inl hl)
    · exact Or.inr (Or.inl (Or.inl hl))
    · rcases h2.total p.2 q.2 with hl2 | hl2 | he2
      · exact Or.inl (Or.inr ⟨he, hl2⟩)
      · exact Or.inr (Or.inl (Or.inr ⟨h1.eqv_symm he, hl2⟩))
      · exact Or.inr (Or.inr ⟨he, he2⟩)
  congr_left := by
    rintro p p' q ⟨he1, he2⟩ (hl | ⟨he, hl⟩)
    · exact Or.inl (h1.congr_left he1 hl)
    · exact Or.inr ⟨h1.eqv_trans (h1.eqv_symm he1) he, h2.congr_left he2 hl⟩
  congr_right := by
    rintro p q q' ⟨he1, he2⟩ (hl | ⟨he, hl⟩)
    · exact Or.inl (h1.congr_right he1 hl)
    · exact Or.inr ⟨h1.eqv_trans he he1, h2.congr_right he2 hl⟩

/-- The strict order and ties of the `PyNum` key column. -/
theorem qCmp : StrictCmp PyNum.ltP PyNum.veq where
  eqv_refl := PyNum.veq_refl
  eqv_symm := PyNum.veq_symm
  eqv_trans := PyNum.veq_trans
  asym := PyNum.ltP_asym
  lt_trans := PyNum.ltP_trans
  total := PyNum.ltP_total
  congr_left := PyNum.veq_ltP_left
  congr_right := PyNum.veq_ltP_right

/-- The strict order and ties of a `String` key column. -/
theorem strCmp : StrictCmp sLtP (Eq (α := String)) where
  eqv_refl := fun _ => rfl
  eqv_symm := Eq.symm
  eqv_trans := Eq.trans
  asym := sLtP_asym
  lt_trans := sLtP_trans
  total := sLtP_total
  congr_left := fun he hl => he ▸ hl
  congr_right := fun he hl => he ▸ hl

/-- From `p ≤ k` (no strict drop back) extract the first component relation. -/
theorem lexLe_decompose {α β : Type} {lt1 eqv1 : α → α → Prop}
    {lt2 : β → β → Prop} (h1 : StrictCmp lt1 eqv1) (p k : α × β)
    (h : ¬ lexLt lt1 eqv1 lt2 k p) :
    lt1 p.1 k.1 ∨ (eqv1 p.1 k.1 ∧ ¬ lt2 k.2 p.2) := by
  rcases h1.total p.1 k.1 with hl | hl | he
  · exact Or.inl hl
  · exact absurd (Or.inl hl) h
  · refine Or.inr ⟨he, fun h2 => h ?_⟩
    exact Or.inr ⟨h1.eqv_symm he, h2⟩

/-- Sandwich: if `p ≤ k ≤ q` lexicographically and `p, q` tie on the first
component, then `k` ties with both and the tail relations carry over. -/
theorem lex_sandwich {α β : Type} {lt1 eqv1 : α → α → Prop}
    {lt2 : β → β → Prop} (h1 : StrictCmp lt1 eqv1) {p k q : α × β}
    (hpk : ¬ lexLt lt1 eqv1 lt2 k p) (hkq : ¬ lexLt lt1 eqv1 lt2 q k)
    (hpq : eqv1 p.1 q.1) :
    eqv1 p.1 k.1 ∧ eqv1 k.1 q.1 ∧ ¬ lt2 k.2 p.2 ∧ ¬ lt2 q.2 k.2 := by
  rcases lexLe_decompose h1 p k hpk with hl | ⟨he, hr⟩
  · exfalso
    rcases lexLe_decompose h1 k q hkq with hl2 | ⟨he2, _⟩
    · exact (h1.not_lt_of_eqv hpq) (h1.lt_trans hl hl2)
    · exact (h1.not_lt_of_eqv hpq) (h1.congr_right he2 hl)
  · rcases lexLe_decompose h1 k q hkq with hl2 | ⟨he2, hr2⟩
    · exfalso
      exact (h1.not_lt_of_eqv hpq) (h1.congr_left (h1.eqv_symm he) hl2)
    · exact ⟨he, he2, hr, hr2⟩

theorem gtQCmp : StrictCmp gtQ PyNum.veq := qCmp.flip

theorem ok5 : StrictCmp lt5 eqv5 :=
  lexOk strCmp (lexOk strCmp (lexOk strCmp (lexOk strCmp gtQCmp)))

theorem ok6 : StrictCmp lt6 eqv6 := lexOk gtQCmp ok5

instance (tot : String → PyNum) : IsTotal Row (relFinal tot) where
  total := fun a b => by
    by_cases h : lt6 (key6 tot b) (key6 tot a)
    · exact Or.inr (fun h2 => ok6.asym h h2)
    · exact Or.inl h

instance (tot : String → PyNum) : IsTrans Row (relFinal tot) where
  trans := fun a b c h1 h2 hca => by
    rcases ok6.total (key6 tot a) (key6 tot b) with hl | hl | he
    · exact h2 (ok6.lt_trans hca hl)
    · exact h1 hl
    · exact h2 (ok6.congr_right he hca)

/- ------------------------------------------------------------------
Structural lemmas about the pipeline.
------------------------------------------------------------------ -/

theorem markFirstAux_map_fst : ∀ (l : List Row) (seen : List String),
    (markFirstAux seen l).map (fun rb => rb.1) = l
  | [], _ => rfl
  | r :: rest, seen => by
      simp only [markFirstAux, List.map_cons]
      rw [markFirstAux_map_fst rest]

theorem attachImgs_map_fst (ir : List IRRow) (l : List (Row × Bool)) :
    (attachImgs ir l).map (fun t => t.1) = l.map (fun rb => rb.1) := by
  unfold attachImgs
  rw [List.map_map]
  rfl

theorem enrichFrom_map_row (m : Nat) (y : Int) :
    ∀ (l : List (Row × Bool × ImgRec)) (pInv : String) (n : Nat),
      (enrichFrom m y pInv n l).map (fun o => o.row) = l.map (fun t => t.1)
  | [], _, _ => rfl
  | t :: rest, pInv, n => by
      simp only [enrichFrom, List.map_cons]
      rw [enrichFrom_map_row m y rest]
      rfl

theorem process_out_map_row (m : Nat) (y : Int) :
    ∀ l : List (Row × Bool × ImgRec),
      (process_out m y l).map (fun o => o.row) = l.map (fun t => t.1)
  | [] => rfl
  | t :: rest => by
      simp only [process_out, List.map_cons]
      rw [enrichFrom_map_row m y rest]
      rfl

/-- The output rows are exactly the re-sorted surviving rows, in order. -/
theorem monthOut_map_row (rows : List Row) (ir : List IRRow) (m : Nat)
    (y : Int) :
    (monthOut rows ir m y).map (fun o => o.row) = sortedKept rows m y := by
  unfold monthOut markFirst
  rw [process_out_map_row, attachImgs_map_fst, markFirstAux_map_fst]

theorem sortedKept_perm (rows : List Row) (m : Nat) (y : Int) :
    (sortedKept rows m y).Perm (keptRows rows m y) :=
  List.perm_insertionSort _ _

theorem sort1_perm (l : List Row) : (sort1 l).Perm l :=
  List.perm_insertionSort _ _

/-- Membership in the filtered month rows, unfolded to the three filters. -/
theorem mem_keptRows {r : Row} {rows : List Row} {m : Nat} {y : Int} :
    r ∈ keptRows rows m y ↔
      r ∈ dfMonth rows m y ∧ thrKeep (monthTot rows m y) r = true ∧
        hasExcludedPfx r.txn_invoice_no = false ∧
        vendKeep (monthTot rows m y) r = true := by
  unfold keptRows
  rw [List.mem_filter, List.mem_filter, List.mem_filter,
    (sort1_perm (dfMonth rows m y)).mem_iff]
  simp only [Bool.not_eq_true']
  tauto

theorem mem_row_of_mem_monthOut {o : OutRow} {rows : List Row}
    {ir : List IRRow} {m : Nat} {y : Int} (h : o ∈ monthOut rows ir m y) :
    o.row ∈ keptRows rows m y := by
  have h1 : o.row ∈ (monthOut rows ir m y).map (fun o => o.row) :=
    List.mem_map_of_mem _ h
  rw [monthOut_map_row] at h1
  exact (sortedKept_perm rows m y).mem_iff.mp h1

theorem exists_monthOut_of_mem_kept {r : Row} {rows : List Row} {m : Nat}
    {y : Int} (ir : List IRRow) (h : r ∈ keptRows rows m y) :
    ∃ o ∈ monthOut rows ir m y, o.row = r := by
  have h2 : r ∈ sortedKept rows m y := (sortedKept_perm rows m y).mem_iff.mpr h
  have h3 : r ∈ (monthOut rows ir m y).map (fun o => o.row) := by
    rw [monthOut_map_row]; exact h2
  rcases List.mem_map.mp h3 with ⟨o, ho, he⟩
  exact ⟨o, ho, he⟩

theorem mem_dfMonth_date {r : Row} {rows : List Row} {m : Nat} {y : Int}
    (h : r ∈ dfMonth rows m y) :
    ∃ d, r.txn_inv_date = some d ∧ d.month = m ∧ d.year = y := by
  rw [dfMonth, List.mem_filter] at h
  have hb := h.2
  unfold inMonthB at hb
  cases hd : r.txn_inv_date with
  | none => rw [hd] at hb; simp at hb
  | some d =>
      rw [hd] at hb
      simp only [Bool.and_eq_true, decide_eq_true_eq] at hb
      exact ⟨d, rfl, hb.1, hb.2⟩

/-- Every output row's invoice total passes the `$2000` threshold. -/
theorem monthOut_thr {o : OutRow} {rows : List Row} {ir : List IRRow}
    {m : Nat} {y : Int} (h : o ∈ monthOut rows ir m y) :
    PyNum.leP (PyNum.ofInt 2000)
      (PyNum.qabs (monthTot rows m y o.row.txn_invoice_no)) := by
  have hk := mem_row_of_mem_monthOut h
  rw [mem_keptRows] at hk
  have ht := hk.2.1
  unfold thrKeep at ht
  simp only [Bool.or_eq_true, decide_eq_true_eq] at ht
  rw [PyNum.ofInt_le_qabs_iff]
  exact ht

theorem enrichFrom_chain (m : Nat) (y : Int) :
    ∀ (l : List (Row × Bool × ImgRec)) (t : Row × Bool × ImgRec) (n : Nat),
      List.Chain' seqStep (mkOut m y t n :: enrichFrom m y t.1.txn_invoice_no n l)
  | [], _, _ => List.chain'_singleton _
  | t2 :: rest, t, n => by
      simp only [enrichFrom]
      refine List.chain'_cons.mpr ⟨?_, enrichFrom_chain m y rest t2 _⟩
      unfold seqStep mkOut
      rfl

theorem process_out_chain (m : Nat) (y : Int) :
    ∀ l : List (Row × Bool × ImgRec), List.Chain' seqStep (process_out m y l)
  | [] => List.chain'_nil
  | t :: rest => enrichFrom_chain m y rest t 1

theorem monthOut_chain (rows : List Row) (ir : List IRRow) (m : Nat)
    (y : Int) : List.Chain' seqStep (monthOut rows ir m y) :=
  process_out_chain m y _

theorem enrichFrom_length (m : Nat) (y : Int) :
    ∀ (l : List (Row × Bool × ImgRec)) (pInv : String) (n : Nat),
      (enrichFrom m y pInv n l).length = l.length
  | [], _, _ => rfl
  | t :: rest, _, _ => by
      simp only [enrichFrom, List.length_cons]
      rw [enrichFrom_length m y rest]

theorem process_out_length (m : Nat) (y : Int) :
    ∀ l : List (Row × Bool × ImgRec), (process_out m y l).length = l.length
  | [] => rfl
  | t :: rest => by
      simp only [process_out, List.length_cons]
      rw [enrichFrom_length m y rest]

theorem attachImgs_length (ir : List IRRow) (l : List (Row × Bool)) :
    (attachImgs ir l).length = l.length := by
  unfold attachImgs
  rw [List.length_map]

theorem markFirstAux_length :
    ∀ (l : List Row) (seen : List String),
      (markFirstAux seen l).length = l.length
  | [], _ => rfl
  | r :: rest, seen => by
      simp only [markFirstAux, List.length_cons]
      rw [markFirstAux_length rest]

theorem monthOut_length (rows : List Row) (ir : List IRRow) (m : Nat)
    (y : Int) :
    (monthOut rows ir m y).length = (sortedKept rows m y).length := by
  unfold monthOut markFirst
  rw [process_out_length, attachImgs_length, markFirstAux_length]

theorem enrichFrom_get (m : Nat) (y : Int) :
    ∀ (l : List (Row × Bool × ImgRec)) (pInv : String) (n : Nat) (i : Nat)
      (h : i < l.length),
      ∃ k, (enrichFrom m y pInv n l).get
          ⟨i, by rw [enrichFrom_length]; exact h⟩ = mkOut m y (l.get ⟨i, h⟩) k
  | [], _, _, i, h => absurd h (Nat.not_lt_zero i)
  | t :: rest, pInv, n, 0, h => ⟨_, rfl⟩
  | t :: rest, pInv, n, i + 1, h => by
      obtain ⟨k, hk⟩ := enrichFrom_get m y rest t.1.txn_invoice_no
        (if t.1.txn_invoice_no = pInv then n else n + 1) i
        (Nat.lt_of_succ_lt_succ h)
      exact ⟨k, hk⟩

theorem process_out_get (m : Nat) (y : Int) :
    ∀ (l : List (Row × Bool × ImgRec)) (i : Nat) (h : i < l.length),
      ∃ k, (process_out m y l).get
          ⟨i, by rw [process_out_length]; exact h⟩ = mkOut m y (l.get ⟨i, h⟩) k
  | [], i, h => absurd h (Nat.not_lt_zero i)
  | t :: rest, 0, h => ⟨1, rfl⟩
  | t :: rest, i + 1, h => by
      obtain ⟨k, hk⟩ := enrichFrom_get m y rest t.1.txn_invoice_no 1 i
        (Nat.lt_of_succ_lt_succ h)
      exact ⟨k, hk⟩

theorem strContains_iff :
    ∀ (l : List String) (x : String), l.contains x = true ↔ x ∈ l
  | [], x => by simp [List.contains]
  | a :: t, x => by
      simp only [List.contains_cons, Bool.or_eq_true, beq_iff_eq,
        List.mem_cons]
      exact or_congr Iff.rfl (strContains_iff t x)

theorem markFirstAux_get_fst :
    ∀ (l : List Row) (seen : List String) (i : Nat) (h : i < l.length),
      ((markFirstAux seen l).get
        ⟨i, by rw [markFirstAux_length]; exact h⟩).1 = l.get ⟨i, h⟩
  | [], _, i, h => absurd h (Nat.not_lt_zero i)
  | r :: rest, seen, 0, h => rfl
  | r :: rest, seen, i + 1, h =>
      markFirstAux_get_fst rest (r.txn_invoice_no :: seen) i
        (Nat.lt_of_succ_lt_succ h)

theorem markFirstAux_get_snd :
    ∀ (l : List Row) (seen : List String) (i : Nat) (h : i < l.length),
      (((markFirstAux seen l).get
          ⟨i, by rw [markFirstAux_length]; exact h⟩).2 = true ↔
        ((l.get ⟨i, h⟩).txn_invoice_no ∉ seen ∧
          ∀ k (hk : k < i),
            (l.get ⟨k, Nat.lt_trans hk h⟩).txn_invoice_no ≠
              (l.get ⟨i, h⟩).txn_invoice_no))
  | [], _, i, h => absurd h (Nat.not_lt_zero i)
  | r :: rest, seen, 0, h => by
      show (!(seen.contains r.txn_invoice_no)) = true ↔ _
      rw [Bool.not_eq_true']
      constructor
      · intro hb
        refine ⟨fun hmem => ?_, fun k hk => absurd hk (Nat.not_lt_zero k)⟩
        rw [(strContains_iff seen r.txn_invoice_no).mpr hmem] at hb
        exact Bool.noConfusion hb
      · intro ⟨h1, _⟩
        cases hcv : seen.contains r.txn_invoice_no with
        | false => rfl
        | true =>
            exact absurd ((strContains_iff seen r.txn_invoice_no).mp hcv) h1
  | r :: rest, seen, i + 1, h => by
      have IH := markFirstAux_get_snd rest (r.txn_invoice_no :: seen) i
        (Nat.lt_of_succ_lt_succ h)
      show (((markFirstAux (r.txn_invoice_no :: seen) rest).get
          ⟨i, _⟩).2 = true ↔ _)
      rw [IH]
      simp only [List.mem_cons, not_or]
      constructor
      · rintro ⟨⟨h1, h2⟩, h3⟩
        refine ⟨h2, fun k hk => ?_⟩
        cases k with
        | zero => exact Ne.symm h1
        | succ k' => exact h3 k' (Nat.lt_of_succ_lt_succ hk)
      · rintro ⟨h2, h3⟩
        refine ⟨⟨Ne.symm (h3 0 (Nat.succ_pos i)), h2⟩, fun k' hk' => ?_⟩
        exact h3 (k' + 1) (Nat.succ_lt_succ hk')

/-- Shape of an output row: the i-th output row is `mkOut` applied to the
i-th re-sorted surviving row, its first-occurrence flag and its image
record, and the flag is true exactly when no earlier row carries the same
invoice number. -/
theorem monthOut_get_shape (rows : List Row) (ir : List IRRow) (m : Nat)
    (y : Int) (i : Nat) (h : i < (sortedKept rows m y).length) :
    ∃ n b,
      (monthOut rows ir m y).get ⟨i, by rw [monthOut_length]; exact h⟩ =
        mkOut m y ((sortedKept rows m y).get ⟨i, h⟩, b,
          irFirst ir ((sortedKept rows m y).get ⟨i, h⟩).txn_invoice_no) n ∧
      (b = true ↔ ∀ k (hk : k < i),
        ((sortedKept rows m y).get ⟨k, Nat.lt_trans hk h⟩).txn_invoice_no ≠
          ((sortedKept rows m y).get ⟨i, h⟩).txn_invoice_no) := by
  have hmf : i < (markFirst (sortedKept rows m y)).length := by
    unfold markFirst
    rw [markFirstAux_length]
    exact h
  have htr : i < (attachImgs ir (markFirst (sortedKept rows m y))).length := by
    rw [attachImgs_length]
    exact hmf
  obtain ⟨n, hn⟩ :=
    process_out_get m y (attachImgs ir (markFirst (sortedKept rows m y))) i htr
  have hget : (attachImgs ir (markFirst (sortedKept rows m y))).get ⟨i, htr⟩ =
      (((markFirst (sortedKept rows m y)).get ⟨i, hmf⟩).1,
       ((markFirst (sortedKept rows m y)).get ⟨i, hmf⟩).2,
       irFirst ir (((markFirst (sortedKept rows m y)).get
         ⟨i, hmf⟩).1.txn_invoice_no)) := by
    unfold attachImgs
    rw [List.get_map]
  have hfst : ((markFirst (sortedKept rows m y)).get ⟨i, hmf⟩).1 =
      (sortedKept rows m y).get ⟨i, h⟩ :=
    markFirstAux_get_fst (sortedKept rows m y) [] i h
  have step1 : (monthOut rows ir m y).get
      ⟨i, by rw [monthOut_length]; exact h⟩ =
      mkOut m y
        ((attachImgs ir (markFirst (sortedKept rows m y))).get ⟨i, htr⟩) n :=
    hn
  refine ⟨n, ((markFirst (sortedKept rows m y)).get ⟨i, hmf⟩).2, ?_, ?_⟩
  · exact step1.trans (by rw [hget, hfst])
  · have hsnd : (((markFirst (sortedKept rows m y)).get ⟨i, hmf⟩).2 = true ↔
        (((sortedKept rows m y).get ⟨i, h⟩).txn_invoice_no ∉
            ([] : List String) ∧
          ∀ k (hk : k < i),
            ((sortedKept rows m y).get
                ⟨k, Nat.lt_trans hk h⟩).txn_invoice_no ≠
              ((sortedKept rows m y).get ⟨i, h⟩).txn_invoice_no)) :=
      markFirstAux_get_snd (sortedKept rows m y) [] i h
    rw [hsnd]
    simp only [List.not_mem_nil, not_false_iff, true_and]

/-- The i-th output row carries the i-th re-sorted surviving row. -/
theorem monthOut_get_row (rows : List Row) (ir : List IRRow) (m : Nat)
    (y : Int) (i : Nat) (h : i < (sortedKept rows m y).length) :
    ((monthOut rows ir m y).get
        ⟨i, by rw [monthOut_length]; exact h⟩).row =
      (sortedKept rows m y).get ⟨i, h⟩ := by
  obtain ⟨n, b, he, _⟩ := monthOut_get_shape rows ir m y i h
  rw [he]
  rfl

theorem sortedKept_sorted (rows : List Row) (m : Nat) (y : Int) :
    List.Sorted (relFinal (monthTot rows m y)) (sortedKept rows m y) :=
  List.sorted_insertionSort _ _

theorem sortedKept_mem_dfMonth (rows : List Row) (m : Nat) (y : Int)
    (t : Fin (sortedKept rows m y).length) :
    (sortedKept rows m y).get t ∈ dfMonth rows m y :=
  (mem_keptRows.mp
    ((sortedKept_perm rows m y).mem_iff.mp
      (List.get_mem (sortedKept rows m y) t.1 t.2))).1

/-- Walking a `For_Seq_No` chain along a constant-invoice region keeps the
sequence number constant. -/
theorem chain_walk {l : List OutRow} (hch : List.Chain' seqStep l)
    (v : String) :
    ∀ (j i : Nat), i ≤ j → ∀ (hi : i < l.length) (hj : j < l.length),
      (∀ k (hk : k < l.length), i ≤ k → k ≤ j →
        (l.get ⟨k, hk⟩).row.txn_invoice_no = v) →
      (l.get ⟨i, hi⟩).forSeq = (l.get ⟨j, hj⟩).forSeq := by
  intro j
  induction j with
  | zero =>
      intro i hij hi hj _
      have h0 : i = 0 := Nat.le_zero.mp hij
      subst h0
      rfl
  | succ j IH =>
      intro i hij hi hj hinv
      by_cases hcase : i = j + 1
      · subst hcase
        rfl
      · have hij' : i ≤ j := by omega
        have hj' : j < l.length := by omega
        have h1 : (l.get ⟨i, hi⟩).forSeq = (l.get ⟨j, hj'⟩).forSeq :=
          IH i hij' hi hj' (fun k hk hk1 hk2 => hinv k hk hk1 (by omega))
        have hstep : seqStep (l.get ⟨j, hj'⟩) (l.get ⟨j + 1, hj⟩) :=
          List.chain'_iff_get.mp hch j (by omega)
        unfold seqStep at hstep
        have hcond : (l.get ⟨j + 1, hj⟩).row.txn_invoice_no =
            (l.get ⟨j, hj'⟩).row.txn_invoice_no := by
          rw [hinv (j + 1) hj (by omega) (le_refl _),
            hinv j hj' (by omega) (by omega)]
        rw [h1, hstep, if_pos hcond]

/-- In the final sort order, any row lying between two rows of the same
invoice (when each invoice has one vendor in the month) carries that same
invoice: the sort keys agree on total, vendor and invoice across the
region. -/
theorem sortedKept_between (rows : List Row) (m : Nat) (y : Int)
    (hv : ∀ r1 ∈ dfMonth rows m y, ∀ r2 ∈ dfMonth rows m y,
        r1.txn_invoice_no = r2.txn_invoice_no → r1.name_1 = r2.name_1)
    {i k j : Nat} (hik : i ≤ k) (hkj : k ≤ j)
    (hi : i < (sortedKept rows m y).length)
    (hk : k < (sortedKept rows m y).length)
    (hj : j < (sortedKept rows m y).length)
    (hsame : ((sortedKept rows m y).get ⟨i, hi⟩).txn_invoice_no =
      ((sortedKept rows m y).get ⟨j, hj⟩).txn_invoice_no) :
    ((sortedKept rows m y).get ⟨k, hk⟩).txn_invoice_no =
      ((sortedKept rows m y).get ⟨i, hi⟩).txn_invoice_no := by
  rcases Nat.eq_or_lt_of_le hik with he | hik'
  · subst he
    rfl
  rcases Nat.eq_or_lt_of_le hkj with he | hkj'
  · subst he
    exact hsame.symm
  have hsorted := sortedKept_sorted rows m y
  have hrel1 : relFinal (monthTot rows m y)
      ((sortedKept rows m y).get ⟨i, hi⟩)
      ((sortedKept rows m y).get ⟨k, hk⟩) :=
    hsorted.rel_get_of_lt hik'
  have hrel2 : relFinal (monthTot rows m y)
      ((sortedKept rows m y).get ⟨k, hk⟩)
      ((sortedKept rows m y).get ⟨j, hj⟩) :=
    hsorted.rel_get_of_lt hkj'
  set ri := (sortedKept rows m y).get ⟨i, hi⟩ with hri
  set rk := (sortedKept rows m y).get ⟨k, hk⟩ with hrk
  set rj := (sortedKept rows m y).get ⟨j, hj⟩ with hrj
  have htot : PyNum.veq (monthTot rows m y ri.txn_invoice_no)
      (monthTot rows m y rj.txn_invoice_no) := by
    rw [hsame]
    exact PyNum.veq_refl _
  have lvl1 := lex_sandwich gtQCmp hrel1 hrel2 htot
  obtain ⟨_, _, hr1, hr2⟩ := lvl1
  have hvend : ri.name_1 = rj.name_1 :=
    hv ri (sortedKept_mem_dfMonth rows m y ⟨i, hi⟩)
      rj (sortedKept_mem_dfMonth rows m y ⟨j, hj⟩) hsame
  have lvl2 := lex_sandwich strCmp hr1 hr2 hvend
  obtain ⟨_, _, hr3, hr4⟩ := lvl2
  have lvl3 := lex_sandwich strCmp hr3 hr4 hsame
  exact lvl3.1.symm

/- ------------------------------------------------------------------
Lemmas about the SQLite variant's duplicate-collapsing invoice total.
------------------------------------------------------------------ -/

theorem sqlSameKey_inv {a b : Row} (h : sqlSameKey a b = true) :
    a.txn_invoice_no = b.txn_invoice_no := by
  unfold sqlSameKey at h
  simp only [Bool.and_eq_true, beq_iff_eq] at h
  exact h.1.1.1.1

theorem sqlSameKey_comm (a b : Row) : sqlSameKey a b = sqlSameKey b a := by
  have h : sqlSameKey a b = true ↔ sqlSameKey b a = true := by
    unfold sqlSameKey
    simp only [Bool.and_eq_true, beq_iff_eq, decide_eq_true_eq]
    constructor
    · rintro ⟨⟨⟨⟨h1, h2⟩, h3⟩, h4⟩, h5⟩
      exact ⟨⟨⟨⟨h1.symm, h2.symm⟩, h3.symm⟩, h4.symm⟩, PyNum.veq_symm h5⟩
    · rintro ⟨⟨⟨⟨h1, h2⟩, h3⟩, h4⟩, h5⟩
      exact ⟨⟨⟨⟨h1.symm, h2.symm⟩, h3.symm⟩, h4.symm⟩, PyNum.veq_symm h5⟩
  cases ha : sqlSameKey a b with
  | true => exact (h.mp ha).symm
  | false =>
      cases hb : sqlSameKey b a with
      | true => rw [← ha, h.mpr hb]
      | false => rfl

/-- When the rows of an invoice are pairwise distinct on the composite key,
the representative-collapsing pass keeps all of them. -/
theorem sqlRepsAux_filter (inv : String) :
    ∀ (l : List Row) (seen : List Row),
      List.Pairwise (fun a b => sqlSameKey a b = false)
        (l.filter (fun r => r.txn_invoice_no == inv)) →
      (∀ s ∈ seen, ∀ r ∈ l, (r.txn_invoice_no == inv) = true →
        sqlSameKey r s = false) →
      (sqlRepsAux seen l).filter (fun r => r.txn_invoice_no == inv) =
        l.filter (fun r => r.txn_invoice_no == inv)
  | [], _, _, _ => rfl
  | r :: rest, seen, hPair, hSeen => by
      unfold sqlRepsAux
      by_cases hdup : seen.any (sqlSameKey r) = true
      · rw [if_pos hdup]
        have hrinv : (r.txn_invoice_no == inv) = false := by
          cases hx : (r.txn_invoice_no == inv) with
          | false => rfl
          | true =>
              obtain ⟨s, hs, hss⟩ := List.any_eq_true.mp hdup
              rw [hSeen s hs r (List.mem_cons_self r rest) hx] at hss
              exact Bool.noConfusion hss
        have hnp : ¬ ((r.txn_invoice_no == inv) = true) := by
          rw [hrinv]; exact Bool.noConfusion
        have hfc : (r :: rest).filter (fun r => r.txn_invoice_no == inv) =
            rest.filter (fun r => r.txn_invoice_no == inv) :=
          List.filter_cons_of_neg hnp
        rw [hfc] at hPair
        rw [hfc]
        exact sqlRepsAux_filter inv rest seen hPair
          (fun s hs r2 hr2 h2 => hSeen s hs r2 (List.mem_cons_of_mem _ hr2) h2)
      · rw [if_neg hdup]
        by_cases hrinv : (r.txn_invoice_no == inv) = true
        · have hfc : (r :: rest).filter (fun r => r.txn_invoice_no == inv) =
              r :: rest.filter (fun r => r.txn_invoice_no == inv) :=
            List.filter_cons_of_pos hrinv
          rw [hfc] at hPair
          have hhead := List.pairwise_cons.mp hPair
          have hfc2 : (r :: sqlRepsAux (r :: seen) rest).filter
              (fun r => r.txn_invoice_no == inv) =
              r :: (sqlRepsAux (r :: seen) rest).filter
                (fun r => r.txn_invoice_no == inv) :=
            List.filter_cons_of_pos hrinv
          rw [hfc2, hfc]
          have IH := sqlRepsAux_filter inv rest (r :: seen) hhead.2 ?_
          · rw [IH]
          · intro s hs r2 hr2 h2
            rcases List.mem_cons.mp hs with he | hmem
            · subst he
              rw [sqlSameKey_comm]
              exact hhead.1 r2 (List.mem_filter.mpr ⟨hr2, h2⟩)
            · exact hSeen s hmem r2 (List.mem_cons_of_mem _ hr2) h2
        · have hrinv' : (r.txn_invoice_no == inv) = false := by
            cases hx : (r.txn_invoice_no == inv) with
            | false => rfl
            | true => exact absurd hx hrinv
          have hnp : ¬ ((r.txn_invoice_no == inv) = true) := by
            rw [hrinv']; exact Bool.noConfusion
          have hfc : (r :: rest).filter (fun r => r.txn_invoice_no == inv) =
              rest.filter (fun r => r.txn_invoice_no == inv) :=
            List.filter_cons_of_neg hnp
          have hfc2 : (r :: sqlRepsAux (r :: seen) rest).filter
              (fun r => r.txn_invoice_no == inv) =
              (sqlRepsAux (r :: seen) rest).filter
                (fun r => r.txn_invoice_no == inv) :=
            List.filter_cons_of_neg hnp
          rw [hfc] at hPair
          rw [hfc2, hfc]
          refine sqlRepsAux_filter inv rest (r :: seen) hPair ?_
          intro s hs r2 hr2 h2
          rcases List.mem_cons.mp hs with he | hmem
          · subst he
            cases hx : sqlSameKey r2 s with
            | false => rfl
            | true =>
                have hinv2 := sqlSameKey_inv hx
                rw [beq_iff_eq] at h2
                refine absurd ?_ hrinv
                rw [beq_iff_eq, ← hinv2]
                exact h2
          · exact hSeen s hmem r2 (List.mem_cons_of_mem _ hr2) h2

theorem sqlReps_filter_of_pairwise (rows : List Row) (inv : String)
    (h : List.Pairwise (fun a b => sqlSameKey a b = false)
        (rows.filter (fun r => r.txn_invoice_no == inv))) :
    (sqlReps rows).filter (fun r => r.txn_invoice_no == inv) =
      rows.filter (fun r => r.txn_invoice_no == inv) :=
  sqlRepsAux_filter inv rows [] h
    (fun s hs => absurd hs (List.not_mem_nil s))

/- ------------------------------------------------------------------
Lemmas about the final variant's pre-processing (C7) and the hyperlink
formula strings (C6).
------------------------------------------------------------------ -/

/-- The cleaned amounts surviving `preprocessV2` are exactly the non-null
`clean_currency` results of the raw rows, in order. -/
theorem preprocessV2_gross :
    ∀ l : List RawRow,
      (preprocessV2 l).map (fun r => some r.txn_gross_amt) =
        (l.map (fun rr => clean_currency rr.txn_gross_amt)).filter
          Option.isSome
  | [] => rfl
  | rr :: rest => by
      unfold preprocessV2
      rw [List.filterMap_cons, List.map_cons, List.filter_cons]
      cases hc : clean_currency rr.txn_gross_amt with
      | none =>
          simp only [Option.map_none', Option.isSome_none, Bool.false_eq_true,
            if_false]
          exact preprocessV2_gross rest
      | some g =>
          simp only [Option.map_some', Option.isSome_some, if_true,
            List.map_cons]
          rw [← preprocessV2_gross rest]
          rfl

theorem isPrefixOf_append : ∀ (l t : List Char), l.isPrefixOf (l ++ t) = true
  | [], t => by cases t <;> rfl
  | c :: cs, t => by
      simp only [List.cons_append, List.isPrefixOf_cons₂_self]
      exact isPrefixOf_append cs t

theorem hyperPfx_formula (t : String) :
    hyperPfx.isPrefixOf ("=HYPERLINK(\"" ++ t).data = true := by
  have he : ("=HYPERLINK(\"" ++ t).data = hyperPfx ++ ('"' :: t.data) := by
    rw [String.data_append]
    rfl
  rw [he]
  exact isPrefixOf_append hyperPfx _

/- ------------------------------------------------------------------
The claims.
------------------------------------------------------------------ -/

/-- Claim C1: a row appears in a month's emitted report only if its parsed
invoice date has exactly that month and exactly that year.  This holds for
the pandas pipeline (first conjunct), but the SQLite variant's stage1 filter
compares only `strftime('%m')` and never the year: a ledger row dated
February 2023 is emitted by a February-2024 run (second conjunct evaluates
the SQLite retention on that failing input). -/
theorem claim_C1 :
    (∀ (rows : List Row) (ir : List IRRow) (m : Nat) (y : Int) (o : OutRow),
        o ∈ monthOut rows ir m y →
        ∃ d, o.row.txn_inv_date = some d ∧ d.month = m ∧ d.year = y) ∧
      sqlEmitted [rowFeb2023] 2 = [rowFeb2023] := by
  constructor
  · intro rows ir m y o ho
    exact mem_dfMonth_date (mem_keptRows.mp (mem_row_of_mem_monthOut ho)).1
  · decide

/-- Witness for C1: a February-2024 row emitted by the pandas pipeline for
(month 2, year 2024) indeed carries that month and year. -/
theorem claim_C1_witness :
    ∃ d, ((monthOut [rowFeb2024] [] 2 2024).getD 0 outD).row.txn_inv_date =
        some d ∧ d.month = 2 ∧ d.year = 2024 :=
  claim_C1.1 [rowFeb2024] [] 2 2024 _ (by decide)

/-- Counterexample to claim C2 as stated: in the SQLite variant, invoice X
of `dupRows` has plain gross sum 1800 (absolute value below 2000), yet its
rows are all emitted, because the variant thresholds on the
duplicate-collapsed total 2400. -/
theorem claim_C2_counterexample :
    PyNum.ltP (PyNum.qabs (invTot (sqlStage1 dupRows 1) "X"))
      (PyNum.ofInt 2000) ∧
    (∀ r ∈ dupRows, r.txn_invoice_no = "X") ∧
    sqlEmitted dupRows 1 = dupRows := by
  refine ⟨by decide, by decide, by decide⟩

/-- Claim C2 (amended to the pandas pipeline): every emitted row's invoice
has a month-row gross sum of absolute value at least 2000, and an invoice
whose total fails the threshold contributes no rows.  (`monthTot` is the
sum over exactly the requested month's rows, taken in sorted order.) -/
theorem claim_C2 (rows : List Row) (ir : List IRRow) (m : Nat) (y : Int)
    (o : OutRow) (ho : o ∈ monthOut rows ir m y) :
    PyNum.leP (PyNum.ofInt 2000)
      (PyNum.qabs (monthTot rows m y o.row.txn_invoice_no)) ∧
    ∀ inv : String,
      PyNum.ltP (PyNum.qabs (monthTot rows m y inv)) (PyNum.ofInt 2000) →
      o.row.txn_invoice_no ≠ inv := by
  refine ⟨monthOut_thr ho, ?_⟩
  intro inv hlt he
  have hle := monthOut_thr ho
  rw [he] at hle
  exact absurd hlt (PyNum.not_ltP_of_leP hle)

/-- Witness for C2 at a concrete one-row table. -/
theorem claim_C2_witness :
    PyNum.leP (PyNum.ofInt 2000)
      (PyNum.qabs (monthTot [rowFeb2024] 2 2024
        (((monthOut [rowFeb2024] [] 2 2024).getD 0 outD).row.txn_invoice_no))) ∧
    ∀ inv : String,
      PyNum.ltP (PyNum.qabs (monthTot [rowFeb2024] 2 2024 inv))
        (PyNum.ofInt 2000) →
      ((monthOut [rowFeb2024] [] 2 2024).getD 0 outD).row.txn_invoice_no ≠
        inv :=
  claim_C2 [rowFeb2024] [] 2 2024 _ (by decide)

/-- Counterexample to claim C3 as stated: the SQLite variant has no GJ/PE
prefix filter, so invoice "GJ4491" (total 5000) is emitted in full. -/
theorem claim_C3_counterexample :
    hasExcludedPfx "GJ4491" = true ∧ sqlEmitted [gjRow] 1 = [gjRow] := by
  refine ⟨by decide, by decide⟩

/-- Claim C3 (amended to the pandas pipeline): no output row's invoice
number starts with "GJ" or "PE" in any letter casing. -/
theorem claim_C3 (rows : List Row) (ir : List IRRow) (m : Nat) (y : Int)
    (o : OutRow) (ho : o ∈ monthOut rows ir m y) :
    hasExcludedPfx o.row.txn_invoice_no = false :=
  (mem_keptRows.mp (mem_row_of_mem_monthOut ho)).2.2.1

/-- Witness for C3 at a concrete one-row table. -/
theorem claim_C3_witness :
    hasExcludedPfx
      (((monthOut [rowFeb2024] [] 2 2024).getD 0 outD).row.txn_invoice_no) =
      false :=
  claim_C3 [rowFeb2024] [] 2 2024 _ (by decide)

/-- Counterexample to claim C4 as stated: (a) a MARYBOY invoice with total
4000 (at least 3500) is still dropped by the pandas pipeline when its
invoice number is GJ-prefixed, and (b) the SQLite variant has no vendor
exclusion at all, so a MARYBOY invoice with total 2500 (below 3500) is
retained there. -/
theorem claim_C4_counterexample :
    vendorMatchB "MARYBOY" = true ∧
    PyNum.leP (PyNum.ofInt 3500)
      (PyNum.qabs (monthTot [maryGJ] 1 2024 "GJ9")) ∧
    monthOut [maryGJ] [] 1 2024 = [] ∧
    PyNum.ltP (PyNum.qabs (sqlInvTotal (sqlStage1 [maryLow] 1) "INV1"))
      (PyNum.ofInt 3500) ∧
    sqlEmitted [maryLow] 1 = [maryLow] := by
  refine ⟨by decide, by decide, by decide, by decide, by decide⟩

/-- Claim C4 (amended): in the pandas pipeline, a month row whose vendor
matches an excluded name and whose invoice number is not GJ/PE-prefixed is
retained in the output exactly when the absolute per-invoice total is at
least 3500. -/
theorem claim_C4 (rows : List Row) (ir : List IRRow) (m : Nat) (y : Int)
    (r : Row) (hdm : r ∈ dfMonth rows m y)
    (hvm : vendorMatchB r.name_1 = true)
    (hpf : hasExcludedPfx r.txn_invoice_no = false) :
    (∃ o ∈ monthOut rows ir m y, o.row = r) ↔
      PyNum.leP (PyNum.ofInt 3500)
        (PyNum.qabs (monthTot rows m y r.txn_invoice_no)) := by
  constructor
  · rintro ⟨o, ho, he⟩
    have hk := mem_row_of_mem_monthOut ho
    rw [he] at hk
    have hv := (mem_keptRows.mp hk).2.2.2
    unfold vendKeep at hv
    rw [Bool.not_eq_true'] at hv
    rcases Bool.and_eq_false_iff.mp hv with hv' | hv'
    · exact PyNum.leP_of_not_ltP (of_decide_eq_false hv')
    · rw [hvm] at hv'
      exact Bool.noConfusion hv'
  · intro h35
    have hthr : thrKeep (monthTot rows m y) r = true := by
      unfold thrKeep
      have h2000 : PyNum.leP (PyNum.ofInt 2000)
          (PyNum.qabs (monthTot rows m y r.txn_invoice_no)) :=
        PyNum.leP_trans (PyNum.ofInt_leP_ofInt (by omega)) h35
      rcases (PyNum.ofInt_le_qabs_iff 2000 _).mp h2000 with hc | hc
      · simp [decide_eq_true hc]
      · simp [decide_eq_true hc]
    have hvend : vendKeep (monthTot rows m y) r = true := by
      unfold vendKeep
      rw [decide_eq_false (PyNum.not_ltP_of_leP h35)]
      rfl
    exact exists_monthOut_of_mem_kept ir
      (mem_keptRows.mpr ⟨hdm, hthr, hpf, hvend⟩)

/-- Witness for C4: MARYBOY with total 4000 and a plain invoice number is
retained. -/
theorem claim_C4_witness :
    ∃ o ∈ monthOut [maryHigh] [] 1 2024, o.row = maryHigh :=
  (claim_C4 [maryHigh] [] 1 2024 maryHigh (by decide) (by decide)
    (by decide)).mpr (by decide)

/-- Counterexample to claim C7 as stated: the first v0.9 variant drops null
gross rows BEFORE cleaning, so a row whose text amount fails to parse
("abc" → null) survives pre-processing carrying a null cleaned amount. -/
theorem claim_C7_counterexample :
    clean_currency (RawAmt.str "abc") = none ∧
    preprocessV1 [rawAbc] =
      [{ name_1 := "V", txn_invoice_no := "I", property := "P1",
         billing_cat := "B1", txn_gross_amt := none,
         txn_inv_date := some ⟨1, 2024⟩ }] := by
  refine ⟨by decide, by decide⟩

/-- Claim C7 (amended to the final v0.9 variant): currency cleaning turns
'(' into '-', deletes ')', ',' and '$', then parses numerically with
unparseable values becoming null, and the final variant's pre-processing
keeps exactly the rows with a non-null cleaned amount (the first variant
instead drops only raw nulls, before cleaning). -/
theorem claim_C7 :
    (∀ l : List RawRow,
      (preprocessV2 l).map (fun r => some r.txn_gross_amt) =
        (l.map (fun rr => clean_currency rr.txn_gross_amt)).filter
          Option.isSome) ∧
    (∀ (l : List RawRow) (r : Row), r ∈ preprocessV2 l →
      ∃ rr ∈ l, clean_currency rr.txn_gross_amt = some r.txn_gross_amt ∧
        r.name_1 = rr.name_1 ∧ r.txn_invoice_no = rr.txn_invoice_no ∧
        r.property = rr.property ∧ r.billing_cat = rr.billing_cat ∧
        r.txn_inv_date = rr.txn_inv_date) ∧
    clean_currency (RawAmt.str "$(2,000.50)") = some ⟨-200050, 100⟩ ∧
    clean_currency (RawAmt.str " 1,234.56 ") = some ⟨123456, 100⟩ ∧
    clean_currency (RawAmt.str "abc") = none ∧
    clean_currency RawAmt.null = none := by
  refine ⟨preprocessV2_gross, ?_, by decide, by decide, by decide, by decide⟩
  intro l r hr
  unfold preprocessV2 at hr
  rcases List.mem_filterMap.mp hr with ⟨rr, hrr, hmap⟩
  rcases Option.map_eq_some'.mp hmap with ⟨g, hg, hbuild⟩
  refine ⟨rr, hrr, ?_⟩
  rw [← hbuild]
  exact ⟨hg, rfl, rfl, rfl, rfl, rfl⟩

/-- Witness for C7's second conjunct at a concrete one-row table. -/
theorem claim_C7_witness :
    ∃ rr ∈ [(⟨"V", "I", "P1", "B1", RawAmt.str "12.50",
        some ⟨1, 2024⟩⟩ : RawRow)],
      clean_currency rr.txn_gross_amt =
        some (((preprocessV2 [⟨"V", "I", "P1", "B1", RawAmt.str "12.50",
          some ⟨1, 2024⟩⟩]).getD 0
            ⟨"", "", "", "", ⟨0, 1⟩, none⟩).txn_gross_amt) ∧
      ((preprocessV2 [⟨"V", "I", "P1", "B1", RawAmt.str "12.50",
          some ⟨1, 2024⟩⟩]).getD 0 ⟨"", "", "", "", ⟨0, 1⟩, none⟩).name_1 =
        rr.name_1 ∧
      ((preprocessV2 [⟨"V", "I", "P1", "B1", RawAmt.str "12.50",
          some ⟨1, 2024⟩⟩]).getD 0
            ⟨"", "", "", "", ⟨0, 1⟩, none⟩).txn_invoice_no =
        rr.txn_invoice_no ∧
      ((preprocessV2 [⟨"V", "I", "P1", "B1", RawAmt.str "12.50",
          some ⟨1, 2024⟩⟩]).getD 0 ⟨"", "", "", "", ⟨0, 1⟩, none⟩).property =
        rr.property ∧
      ((preprocessV2 [⟨"V", "I", "P1", "B1", RawAmt.str "12.50",
          some ⟨1, 2024⟩⟩]).getD 0
            ⟨"", "", "", "", ⟨0, 1⟩, none⟩).billing_cat =
        rr.billing_cat ∧
      ((preprocessV2 [⟨"V", "I", "P1", "B1", RawAmt.str "12.50",
          some ⟨1, 2024⟩⟩]).getD 0
            ⟨"", "", "", "", ⟨0, 1⟩, none⟩).txn_inv_date =
        rr.txn_inv_date :=
  claim_C7.2.1 _ _ (by decide)

/-- Claim C8: in each variant, a month specification whose integer parsing
fails in THAT variant makes that variant's `parse_months` return exactly
`[1]`.  The two variants fail on different inputs (the SQLite variant's
strict two-value unpack of a range raises on "1-2-3" while the final v0.9
variant indexes the first two parts and succeeds), so each conjunct carries
only its own variant's failure hypothesis. -/
theorem claim_C8 :
    (∀ s : String, tryParseMonths s = none → parse_months s = [1]) ∧
    (∀ s : String, tryParseMonthsSql s = none → parse_months_sql s = [1]) := by
  constructor
  · intro s h1
    unfold parse_months
    rw [h1]
    rfl
  · intro s h2
    unfold parse_months_sql
    rw [h2]
    rfl

/-- Witness for C8: the specification "x,y" fails the parse of both
variants and each then yields `[1]`; the range "1-2-3" fails only the
SQLite variant's parse, which also yields `[1]` (while the final variant
parses it as the months 1 and 2). -/
theorem claim_C8_witness :
    parse_months "x,y" = [1] ∧ parse_months_sql "x,y" = [1] ∧
    parse_months_sql "1-2-3" = [1] ∧ parse_months "1-2-3" = [1, 2] :=
  ⟨claim_C8.1 "x,y" (by decide), claim_C8.2 "x,y" (by decide),
    claim_C8.2 "1-2-3" (by decide), by decide⟩

/-- Counterexample to claim C10 as stated: the SQLite-script variant does
not sort, so "3,1" yields the unsorted list [3, 1]. -/
theorem claim_C10_counterexample :
    parse_months_sql "3,1" = [3, 1] ∧
    ¬ List.Sorted (· ≤ ·) (parse_months_sql "3,1") := by
  refine ⟨by decide, by decide⟩

/-- Claim C10 (amended): the final v0.9 `parse_months` always returns a
sorted list, both variants return only months within 1..12, and well-formed
out-of-range specifications such as "13" or "0" give the empty list rather
than the fallback `[1]`. -/
theorem claim_C10 (s : String) :
    List.Sorted (· ≤ ·) (parse_months s) ∧
    (∀ mm ∈ parse_months s, 1 ≤ mm ∧ mm ≤ 12) ∧
    (∀ mm ∈ parse_months_sql s, 1 ≤ mm ∧ mm ≤ 12) ∧
    parse_months "13" = [] ∧ parse_months_sql "13" = [] ∧
    parse_months "0" = [] := by
  refine ⟨List.sorted_insertionSort _ _, ?_, ?_, by decide, by decide,
    by decide⟩
  · intro mm hmm
    have h1 : mm ∈ ((tryParseMonths s).getD [1]).filter monthBoundsOk :=
      (List.perm_insertionSort _ _).mem_iff.mp hmm
    have h2 := (List.mem_filter.mp h1).2
    unfold monthBoundsOk at h2
    exact of_decide_eq_true h2
  · intro mm hmm
    have h2 := (List.mem_filter.mp hmm).2
    unfold monthBoundsOk at h2
    exact of_decide_eq_true h2

/-- Witness for C10's bound conjuncts on the specification "2,1". -/
theorem claim_C10_witness :
    List.Sorted (· ≤ ·) (parse_months "2,1") ∧
    (1 ≤ (1 : Int) ∧ (1 : Int) ≤ 12) ∧ (1 ≤ (2 : Int) ∧ (2 : Int) ≤ 12) :=
  ⟨(claim_C10 "2,1").1, (claim_C10 "2,1").2.1 1 (by decide),
    (claim_C10 "2,1").2.2.1 2 (by decide)⟩

/-- Counterexample to claim C9 as stated: on a table with two identical
1500 rows of invoice X, the pandas per-invoice total is 3000 while the
SQLite `inv_total` collapses the duplicates to 1500 — the totals differ. -/
theorem claim_C9_counterexample :
    PyNum.veq (invTot pairRows "X") (PyNum.ofInt 3000) ∧
    PyNum.veq (sqlInvTotal pairRows "X") (PyNum.ofInt 1500) ∧
    ¬ PyNum.veq (invTot pairRows "X") (sqlInvTotal pairRows "X") := by
  refine ⟨by decide, by decide, by decide⟩

/-- Claim C9 (amended): the two variants' per-invoice totals coincide
exactly on tables where no two rows of the invoice agree on the whole
composite key (invoice, vendor, property, billing category, amount); here
the agreement is proved under that duplicate-freeness condition. -/
theorem claim_C9 (rows : List Row) (inv : String)
    (h : List.Pairwise (fun a b => sqlSameKey a b = false)
      (rows.filter (fun r => r.txn_invoice_no == inv))) :
    invTot rows inv = sqlInvTotal rows inv := by
  unfold invTot sqlInvTotal
  rw [sqlReps_filter_of_pairwise rows inv h]

/-- Witness for C9 on a duplicate-free two-row table. -/
theorem claim_C9_witness :
    invTot dupTwo "X" = sqlInvTotal dupTwo "X" :=
  claim_C9 dupTwo "X" (by decide)

/- ------------------------------------------------------------------
Claims C5 and C6 (sequence numbers and first-row-only outputs).
------------------------------------------------------------------ -/

/-- Rows of one invoice keep one sequence number: between two equal-invoice
positions every row carries the same invoice (under one vendor per
invoice), so the chained counter never steps. -/
theorem monthOut_seq_eq_of_le (rows : List Row) (ir : List IRRow) (m : Nat)
    (y : Int)
    (hv : ∀ r1 ∈ dfMonth rows m y, ∀ r2 ∈ dfMonth rows m y,
        r1.txn_invoice_no = r2.txn_invoice_no → r1.name_1 = r2.name_1)
    {i j : Nat} (hij : i ≤ j) (hio : i < (monthOut rows ir m y).length)
    (hjo : j < (monthOut rows ir m y).length)
    (hsame : ((monthOut rows ir m y).get ⟨i, hio⟩).row.txn_invoice_no =
      ((monthOut rows ir m y).get ⟨j, hjo⟩).row.txn_invoice_no) :
    ((monthOut rows ir m y).get ⟨i, hio⟩).forSeq =
      ((monthOut rows ir m y).get ⟨j, hjo⟩).forSeq := by
  have hlen := monthOut_length rows ir m y
  have hi' : i < (sortedKept rows m y).length := by rw [← hlen]; exact hio
  have hj' : j < (sortedKept rows m y).length := by rw [← hlen]; exact hjo
  have hrowi : ((monthOut rows ir m y).get ⟨i, hio⟩).row =
      (sortedKept rows m y).get ⟨i, hi'⟩ := monthOut_get_row rows ir m y i hi'
  have hrowj : ((monthOut rows ir m y).get ⟨j, hjo⟩).row =
      (sortedKept rows m y).get ⟨j, hj'⟩ := monthOut_get_row rows ir m y j hj'
  have hsame' : ((sortedKept rows m y).get ⟨i, hi'⟩).txn_invoice_no =
      ((sortedKept rows m y).get ⟨j, hj'⟩).txn_invoice_no := by
    rw [← hrowi, ← hrowj]
    exact hsame
  apply chain_walk (monthOut_chain rows ir m y)
    (((monthOut rows ir m y).get ⟨i, hio⟩).row.txn_invoice_no) j i hij hio hjo
  intro k hk hik hkj
  have hk' : k < (sortedKept rows m y).length := by rw [← hlen]; exact hk
  have hrowk : ((monthOut rows ir m y).get ⟨k, hk⟩).row =
      (sortedKept rows m y).get ⟨k, hk'⟩ := monthOut_get_row rows ir m y k hk'
  rw [hrowk, hrowi]
  exact sortedKept_between rows m y hv hik hkj hi' hk' hj' hsame'

/-- Counterexample to claim C5 as stated: in `runRows`, invoice X appears
at output positions 0 and 2 with sequence numbers 1 and 3 — rows sharing an
invoice number do not all share a sequence number. -/
theorem claim_C5_counterexample :
    ((monthOut runRows [] 1 2024).getD 0 outD).row.txn_invoice_no = "X" ∧
    ((monthOut runRows [] 1 2024).getD 2 outD).row.txn_invoice_no = "X" ∧
    ((monthOut runRows [] 1 2024).getD 0 outD).forSeq = 1 ∧
    ((monthOut runRows [] 1 2024).getD 2 outD).forSeq = 3 ∧
    (monthOut runRows [] 1 2024).length = 3 := by
  refine ⟨by decide, by decide, by decide, by decide, by decide⟩

/-- Claim C5 (amended): in a month's output, the sequence numbers follow
the chained step rule — equal to the previous row's number when the invoice
repeats and exactly one more when it changes (hence non-decreasing) — and,
provided every invoice carries a single vendor within the month, all rows
sharing an invoice number share one sequence number.  (An invoice split
across vendors can occupy several runs and then receives one number per
run, as the counterexample shows.) -/
theorem claim_C5 (rows : List Row) (ir : List IRRow) (m : Nat) (y : Int) :
    List.Chain' seqStep (monthOut rows ir m y) ∧
    ((∀ r1 ∈ dfMonth rows m y, ∀ r2 ∈ dfMonth rows m y,
        r1.txn_invoice_no = r2.txn_invoice_no → r1.name_1 = r2.name_1) →
      ∀ o1 ∈ monthOut rows ir m y, ∀ o2 ∈ monthOut rows ir m y,
        o1.row.txn_invoice_no = o2.row.txn_invoice_no →
        o1.forSeq = o2.forSeq) := by
  refine ⟨monthOut_chain rows ir m y, ?_⟩
  intro hv o1 h1 o2 h2 hsame
  rcases List.mem_iff_get.mp h1 with ⟨n1, he1⟩
  rcases List.mem_iff_get.mp h2 with ⟨n2, he2⟩
  subst he1
  subst he2
  rcases Nat.le_total n1.1 n2.1 with hle | hle
  · exact monthOut_seq_eq_of_le rows ir m y hv hle n1.2 n2.2 hsame
  · exact (monthOut_seq_eq_of_le rows ir m y hv hle n2.2 n1.2 hsame.symm).symm

/-- Witness for C5 on a two-row single-invoice table. -/
theorem claim_C5_witness :
    ((monthOut wRows2 [] 1 2024).getD 0 outD).forSeq =
      ((monthOut wRows2 [] 1 2024).getD 1 outD).forSeq :=
  (claim_C5 wRows2 [] 1 2024).2 (by decide) _ (by decide) _ (by decide)
    (by decide)

/-- Case analysis of one generated hyperlink cell: non-first rows and
missing/blank images give the integer 0 sentinel; a first row with a
populated image gives a `=HYPERLINK(` formula string. -/
theorem make_hyperlink_cases (b : Bool) (img : Option String) (v : PyVal)
    (base : String) (hv : v = make_hyperlink b img base) :
    ((b = false ∨ imgPresentB img = false) → v = PyVal.intv 0) ∧
    ((b = true ∧ imgPresentB img = true) →
      ∃ s, v = PyVal.strv s ∧ hyperPfx.isPrefixOf s.data = true) := by
  subst hv
  cases b with
  | false =>
      refine ⟨fun _ => rfl, ?_⟩
      rintro ⟨hb, _⟩
      exact Bool.noConfusion hb
  | true =>
      cases img with
      | none =>
          refine ⟨fun _ => rfl, ?_⟩
          rintro ⟨_, hp⟩
          exact Bool.noConfusion hp
      | some s =>
          by_cases he : (trimL s.data).isEmpty = true
          · constructor
            · intro _
              unfold make_hyperlink
              simp [he]
            · rintro ⟨_, hp⟩
              simp only [imgPresentB, he, Bool.not_true] at hp
              exact Bool.noConfusion hp
          · constructor
            · rintro (hb | hp)
              · exact Bool.noConfusion hb
              · simp only [imgPresentB, Bool.not_eq_false'] at hp
                exact absurd hp he
            · intro _
              refine ⟨"=HYPERLINK(\"" ++
                (base ++ (strTrim s ++ ("\", \"" ++ (strTrim s ++ "\")")))),
                ?_, hyperPfx_formula _⟩
              unfold make_hyperlink
              simp only [Bool.not_true, Bool.false_eq_true, if_false]
              rw [if_neg he]
              simp [String.append_assoc]

/-- Counterexample to claim C6 as stated: in `runRows`, the output row at
position 2 starts a new invoice-number run (its invoice differs from the
previous row's), yet it carries the 0 sentinel in the tax-commission
filename column, because the source flags only the FIRST OCCURRENCE of each
invoice in the whole frame, not the first row of each run. -/
theorem claim_C6_counterexample :
    ((monthOut runRows [] 1 2024).getD 2 outD).row.txn_invoice_no ≠
      ((monthOut runRows [] 1 2024).getD 1 outD).row.txn_invoice_no ∧
    ((monthOut runRows [] 1 2024).getD 2 outD).taxComm = PyVal.intv 0 ∧
    (monthOut runRows [] 1 2024).length = 3 := by
  refine ⟨by decide, by decide, by decide⟩

/-- Claim C6 (amended): in a month's output, exactly the rows that are the
FIRST OCCURRENCE of their invoice number carry a non-zero tax-commission
filename — which is then precisely `S<year><month:02d>-<seq:03d>.pdf` — and
non-zero `=HYPERLINK(` formulas in the populated image-link columns; every
other row, and every unpopulated image column, shows the 0 sentinel. -/
theorem claim_C6 (rows : List Row) (ir : List IRRow) (m : Nat) (y : Int)
    (i : Nat) (h : i < (monthOut rows ir m y).length) :
    ((((monthOut rows ir m y).get ⟨i, h⟩).taxComm ≠ PyVal.intv 0) ↔
      (∀ k (hk : k < i),
        ((monthOut rows ir m y).get
            ⟨k, Nat.lt_trans hk h⟩).row.txn_invoice_no ≠
          ((monthOut rows ir m y).get ⟨i, h⟩).row.txn_invoice_no)) ∧
    (((monthOut rows ir m y).get ⟨i, h⟩).taxComm ≠ PyVal.intv 0 →
      ((monthOut rows ir m y).get ⟨i, h⟩).taxComm =
        PyVal.strv (taxFname y m (((monthOut rows ir m y).get
          ⟨i, h⟩).forSeq))) ∧
    (∀ j, j < 4 →
      ∀ v ∈ ((monthOut rows ir m y).get ⟨i, h⟩).links.getD j [],
        ((((monthOut rows ir m y).get ⟨i, h⟩).taxComm = PyVal.intv 0 ∨
            imgPresentB ((imgList (irFirst ir
              (((monthOut rows ir m y).get
                ⟨i, h⟩).row.txn_invoice_no))).getD j none) = false) →
          v = PyVal.intv 0) ∧
        ((((monthOut rows ir m y).get ⟨i, h⟩).taxComm ≠ PyVal.intv 0 ∧
            imgPresentB ((imgList (irFirst ir
              (((monthOut rows ir m y).get
                ⟨i, h⟩).row.txn_invoice_no))).getD j none) = true) →
          ∃ s, v = PyVal.strv s ∧
            hyperPfx.isPrefixOf s.data = true)) := by
  have hlen := monthOut_length rows ir m y
  have hi' : i < (sortedKept rows m y).length := by rw [← hlen]; exact h
  obtain ⟨n, b, hsh0, hflag⟩ := monthOut_get_shape rows ir m y i hi'
  have hsh : (monthOut rows ir m y).get ⟨i, h⟩ =
      mkOut m y ((sortedKept rows m y).get ⟨i, hi'⟩, b,
        irFirst ir (((sortedKept rows m y).get ⟨i, hi'⟩).txn_invoice_no)) n :=
    hsh0
  have hrow : ((monthOut rows ir m y).get ⟨i, h⟩).row =
      (sortedKept rows m y).get ⟨i, hi'⟩ := by rw [hsh]; rfl
  have hseq : ((monthOut rows ir m y).get ⟨i, h⟩).forSeq = n := by
    rw [hsh]; rfl
  have htax : ((monthOut rows ir m y).get ⟨i, h⟩).taxComm =
      (if b then PyVal.strv (taxFname y m n) else PyVal.intv 0) := by
    rw [hsh]; rfl
  have hlinks : ((monthOut rows ir m y).get ⟨i, h⟩).links =
      (imgList (irFirst ir
        (((sortedKept rows m y).get ⟨i, hi'⟩).txn_invoice_no))).map
          (fun img => (pathBases m y).map (make_hyperlink b img)) := by
    rw [hsh]; rfl
  have hbz : (((monthOut rows ir m y).get ⟨i, h⟩).taxComm ≠ PyVal.intv 0) ↔
      b = true := by
    rw [htax]
    cases b with
    | false => simp
    | true => simp
  refine ⟨?_, ?_, ?_⟩
  · rw [hbz, hflag]
    constructor
    · intro hf k hk
      have hk' : k < (sortedKept rows m y).length := Nat.lt_trans hk hi'
      have hrowk : ((monthOut rows ir m y).get
          ⟨k, Nat.lt_trans hk h⟩).row = (sortedKept rows m y).get ⟨k, hk'⟩ :=
        monthOut_get_row rows ir m y k hk'
      rw [hrowk, hrow]
      exact hf k hk
    · intro hf k hk
      have hk' : k < (sortedKept rows m y).length := Nat.lt_trans hk hi'
      have hrowk : ((monthOut rows ir m y).get
          ⟨k, Nat.lt_trans hk h⟩).row = (sortedKept rows m y).get ⟨k, hk'⟩ :=
        monthOut_get_row rows ir m y k hk'
      have := hf k hk
      rw [hrowk, hrow] at this
      exact this
  · intro hnz
    have hb := hbz.mp hnz
    rw [htax, if_pos hb, hseq]
  · intro j hj v hv
    rw [hlinks] at hv
    rw [hrow]
    interval_cases j <;>
      · obtain ⟨base, _, hveq⟩ := List.mem_map.mp hv
        have hc := make_hyperlink_cases b _ v base hveq.symm
        constructor
        · intro hcase
          apply hc.1
          rcases hcase with h0 | h0
          · left
            cases b with
            | false => rfl
            | true =>
                rw [htax] at h0
                simp at h0
          · right
            exact h0
        · rintro ⟨hnz, hp⟩
          exact hc.2 ⟨hbz.mp hnz, hp⟩

/-- Witness for C6: the sole (hence first-occurrence) row of a one-row
table has a non-zero tax-commission filename. -/
theorem claim_C6_witness :
    ((monthOut [rowFeb2024] wIR 2 2024).get ⟨0, by decide⟩).taxComm ≠
      PyVal.intv 0 :=
  (claim_C6 [rowFeb2024] wIR 2 2024 0 (by decide)).1.mpr
    (fun k hk => absurd hk (Nat.not_lt_zero k))
